import Mathlib

/-!
Verification of the linkedin-networking-cli core against its specification.

The Python sources are shallowly embedded: pure helpers become Lean functions
on `String` / `List Char`; the browser-driving candidate loop becomes a state
machine whose per-candidate environment (what the remote page shows at each
decision point of the code) is passed in explicitly; the SQLite tables become
lists of records threaded through the operations.  Timestamps
(`datetime.now`) are modelled by an abstract monotone counter.
-/

namespace LinkedinNetworking

/-! ### Python-style character and string helpers

The Python code manipulates `str` values with `split`, `strip`, `lower`,
`join`, `in` and slicing.  These are modelled on `List Char` (a Python string
is a sequence of characters) and wrapped into `String` at the boundary.
-/

/-- Python whitespace for `str.strip` (the ASCII whitespace characters). -/
def pyIsSpace (c : Char) : Bool :=
  c = ' ' || c = '\t' || c = '\n' || c = '\x0d' || c = '\x0b' || c = '\x0c'

/-- `str.strip()`: drop whitespace from both ends. -/
def pyStrip (l : List Char) : List Char :=
  ((l.dropWhile pyIsSpace).reverse.dropWhile pyIsSpace).reverse

/-- `str.lower()` over the ASCII and Latin-1 uppercase ranges, which cover
every character of the header phrases the code compares. -/
def pyLower (l : List Char) : List Char :=
  l.map fun c =>
    if ('A' ≤ c ∧ c ≤ 'Z') ∨ (0xC0 ≤ c.toNat ∧ c.toNat ≤ 0xDE ∧ c.toNat ≠ 0xD7) then
      Char.ofNat (c.toNat + 32)
    else c

/-- Python `needle in haystack` (contiguous substring test). -/
def pyInChars (needle : List Char) : List Char → Bool
  | [] => needle.isEmpty
  | c :: rest => needle.isPrefixOf (c :: rest) || pyInChars needle rest

/-- `s.split(sep)` for a one-character separator: always returns at least one
group; a separator at either end yields an empty group there. -/
def splitChar (sep : Char) : List Char → List (List Char)
  | [] => [[]]
  | c :: rest =>
    match splitChar sep rest with
    | [] => [[]]
    | g :: gs => if c = sep then [] :: g :: gs else (c :: g) :: gs

/-- `sep.join(groups)` on character lists. -/
def joinChars (sep : List Char) : List (List Char) → List Char
  | [] => []
  | [g] => g
  | g :: g2 :: gs => g ++ sep ++ joinChars sep (g2 :: gs)

/-- `sep.join(xs)` on strings. -/
def pyJoin (sep : String) (xs : List String) : String :=
  String.mk (joinChars sep.toList (xs.map String.toList))

theorem splitChar_ne_nil (sep : Char) (l : List Char) : splitChar sep l ≠ [] := by
  cases l with
  | nil => simp [splitChar]
  | cons c rest =>
    simp only [splitChar]
    match h : splitChar sep rest with
    | [] => simp
    | g :: gs => by_cases hc : c = sep <;> simp [hc]

/-! ### `checker._clean_profile_url` (claim C10)

```python
def _clean_profile_url(url: str) -> str:
    if not url:
        return ""
    if "?" in url:
        url = url.split("?")[0]
    if "#" in url:
        url = url.split("#")[0]
    if not url.endswith("/"):
        url += "/"
    if url.startswith("/in/"):
        url = "https://www.linkedin.com" + url
    return url
```
-/

/-- `url.split(c)[0]`: everything before the first occurrence of `c`. -/
def beforeFirst (c : Char) (l : List Char) : List Char :=
  l.takeWhile (· ≠ c)

/-- `if "?" in url: url = url.split("?")[0]` (remove query parameters). -/
def stripQuery (url : List Char) : List Char :=
  if '?' ∈ url then beforeFirst '?' url else url

/-- `if "#" in url: url = url.split("#")[0]` (remove fragments). -/
def stripFragment (url : List Char) : List Char :=
  if '#' ∈ url then beforeFirst '#' url else url

/-- `if not url.endswith("/"): url += "/"`. -/
def ensureSlash (url : List Char) : List Char :=
  if url.getLast? = some '/' then url else url ++ ['/']

/-- `if url.startswith("/in/"): url = "https://www.linkedin.com" + url`. -/
def absolutize (url : List Char) : List Char :=
  if ("/in/".toList).isPrefixOf url then ("https://www.linkedin.com".toList) ++ url else url

/-- Core of `_clean_profile_url` on character lists: the four statements of the
Python function in sequence, after the `if not url: return ""` guard. -/
def cleanProfileUrlChars (url : List Char) : List Char :=
  if url = [] then []
  else absolutize (ensureSlash (stripFragment (stripQuery url)))

/-- `checker._clean_profile_url`. -/
def clean_profile_url (url : String) : String :=
  String.mk (cleanProfileUrlChars url.toList)

/-! ### `linkedin_mappings.format_ids_for_url` (claims C7, C8)

```python
def format_ids_for_url(ids: str) -> str:
    if not ids or not ids.strip():
        return ""
    id_list = [id.strip() for id in ids.split(",") if id.strip()]
    formatted = ','.join([f'"{id}"' for id in id_list])
    return f'[{formatted}]'
```
(`not ids or not ids.strip()` is equivalent to `ids.strip() == ""`.)
-/

/-- `linkedin_mappings.format_ids_for_url`. -/
def format_ids_for_url (ids : String) : String :=
  if pyStrip ids.toList = [] then ""
  else
    let id_list := ((splitChar ',' ids.toList).map pyStrip).filter (· ≠ [])
    let formatted := joinChars [','] (id_list.map (fun i => '"' :: (i ++ ['"'])))
    String.mk ('[' :: (formatted ++ [']']))

/-- Modelled from the spec: the inverse direction of the round-trip property
("round-tripping a comma-separated ID list through the bracket-formatter and
back recovers the original ID set").  No repository function parses the
bracketed list back; this definition follows the format description: strip
the surrounding bracket pair, split on the joining commas, strip the
surrounding double-quote pair of every element. -/
def parseFormattedIds (s : String) : List String :=
  if s.toList = [] then []
  else
    ((splitChar ',' ((s.toList.drop 1).dropLast)).map
      (fun g => String.mk ((g.drop 1).dropLast)))

/-! #### Properties of the URL normalizer (claim C10) -/

theorem mem_beforeFirst {c x : Char} {l : List Char} (hx : x ∈ beforeFirst c l) : x ≠ c := by
  have h := List.mem_takeWhile_imp hx
  simpa using h

theorem mem_beforeFirst_sub {c x : Char} {l : List Char} (hx : x ∈ beforeFirst c l) : x ∈ l :=
  (List.takeWhile_sublist _).subset hx

theorem stripQuery_no_query {url : List Char} : '?' ∉ stripQuery url := by
  unfold stripQuery
  split
  · intro hmem
    exact mem_beforeFirst hmem rfl
  · assumption

theorem mem_stripQuery_sub {x : Char} {url : List Char} (hx : x ∈ stripQuery url) : x ∈ url := by
  unfold stripQuery at hx
  split at hx
  · exact mem_beforeFirst_sub hx
  · exact hx

theorem stripFragment_no_fragment {url : List Char} : '#' ∉ stripFragment url := by
  unfold stripFragment
  split
  · intro hmem
    exact mem_beforeFirst hmem rfl
  · assumption

theorem mem_stripFragment_sub {x : Char} {url : List Char} (hx : x ∈ stripFragment url) :
    x ∈ url := by
  unfold stripFragment at hx
  split at hx
  · exact mem_beforeFirst_sub hx
  · exact hx

theorem ensureSlash_getLast {url : List Char} : (ensureSlash url).getLast? = some '/' := by
  unfold ensureSlash
  split
  · assumption
  · exact List.getLast?_concat _

theorem ensureSlash_ne_nil {url : List Char} : ensureSlash url ≠ [] := by
  intro h
  have := @ensureSlash_getLast url
  rw [h] at this
  simp at this

theorem mem_ensureSlash {x : Char} {url : List Char} (hx : x ∈ ensureSlash url) :
    x ∈ url ∨ x = '/' := by
  unfold ensureSlash at hx
  split at hx
  · exact Or.inl hx
  · rcases List.mem_append.mp hx with h | h
    · exact Or.inl h
    · simp at h
      exact Or.inr h

theorem absolutize_getLast {url : List Char} (h : url ≠ []) :
    (absolutize url).getLast? = url.getLast? := by
  unfold absolutize
  split
  · rw [List.getLast?_append]
    cases hu : url.getLast? with
    | none => exact absurd (List.getLast?_eq_none_iff.mp hu) h
    | some c => rfl
  · rfl

theorem mem_absolutize {x : Char} {url : List Char} (hx : x ∈ absolutize url) :
    x ∈ url ∨ x ∈ ("https://www.linkedin.com".toList) := by
  unfold absolutize at hx
  split at hx
  · rcases List.mem_append.mp hx with h | h
    · exact Or.inr h
    · exact Or.inl h
  · exact Or.inl hx

theorem absolutize_not_in (url : List Char) :
    ("/in/".toList).isPrefixOf (absolutize url) = false := by
  unfold absolutize
  split
  · rfl
  · next h => exact Bool.eq_false_iff.mpr h

theorem cleanProfileUrlChars_no_qf {url : List Char} {x : Char}
    (hx : x ∈ cleanProfileUrlChars url) : x ≠ '?' ∧ x ≠ '#' := by
  unfold cleanProfileUrlChars at hx
  split at hx
  · simp at hx
  · rcases mem_absolutize hx with h | h
    · rcases mem_ensureSlash h with h2 | h2
      · constructor
        · intro he
          subst he
          exact stripQuery_no_query (mem_stripFragment_sub h2)
        · intro he
          subst he
          exact stripFragment_no_fragment h2
      · subst h2
        exact ⟨by decide, by decide⟩
    · -- characters of the fixed domain string are neither of the two
      constructor <;> (intro he; subst he; revert h; decide)

theorem cleanProfileUrlChars_getLast {url : List Char} (h : url ≠ []) :
    (cleanProfileUrlChars url).getLast? = some '/' := by
  unfold cleanProfileUrlChars
  rw [if_neg h, absolutize_getLast ensureSlash_ne_nil, ensureSlash_getLast]

theorem cleanProfileUrlChars_ne_nil {url : List Char} (h : url ≠ []) :
    cleanProfileUrlChars url ≠ [] := by
  intro hnil
  have := cleanProfileUrlChars_getLast h
  rw [hnil] at this
  simp at this

theorem cleanProfileUrlChars_fixed {v : List Char} (hne : v ≠ []) (hq : '?' ∉ v)
    (hf : '#' ∉ v) (hlast : v.getLast? = some '/')
    (hpre : ("/in/".toList).isPrefixOf v = false) : cleanProfileUrlChars v = v := by
  unfold cleanProfileUrlChars
  rw [if_neg hne]
  rw [show stripQuery v = v from if_neg hq]
  rw [show stripFragment v = v from if_neg hf]
  rw [show ensureSlash v = v from if_pos hlast]
  unfold absolutize
  rw [hpre]
  simp

theorem cleanProfileUrlChars_idem (url : List Char) :
    cleanProfileUrlChars (cleanProfileUrlChars url) = cleanProfileUrlChars url := by
  by_cases h : url = []
  · subst h
    rfl
  · have hpre : ("/in/".toList).isPrefixOf (cleanProfileUrlChars url) = false := by
      unfold cleanProfileUrlChars
      rw [if_neg h]
      exact absolutize_not_in _
    exact cleanProfileUrlChars_fixed (cleanProfileUrlChars_ne_nil h)
      (fun hm => (cleanProfileUrlChars_no_qf hm).1 rfl)
      (fun hm => (cleanProfileUrlChars_no_qf hm).2 rfl)
      (cleanProfileUrlChars_getLast h) hpre

theorem string_empty_iff (s : String) : s = "" ↔ s.toList = [] := by
  rw [String.ext_iff]
  rfl

/-- C10: the URL normalizer `_clean_profile_url` used by the smart checker is
idempotent; its output never contains a query (`?`) or fragment (`#`)
character, always ends with `/` when the input is non-empty, and is the empty
string exactly when the input is empty. -/
theorem claim_C10_clean_profile_url (u : String) :
    clean_profile_url (clean_profile_url u) = clean_profile_url u
    ∧ (∀ c ∈ (clean_profile_url u).toList, c ≠ '?' ∧ c ≠ '#')
    ∧ (u ≠ "" → (clean_profile_url u).toList.getLast? = some '/')
    ∧ (clean_profile_url u = "" ↔ u = "") := by
  refine ⟨?_, ?_, ?_, ?_⟩
  · show String.mk (cleanProfileUrlChars (cleanProfileUrlChars u.toList)) =
      String.mk (cleanProfileUrlChars u.toList)
    rw [cleanProfileUrlChars_idem]
  · intro c hc
    exact cleanProfileUrlChars_no_qf hc
  · intro hne
    exact cleanProfileUrlChars_getLast (fun h0 => hne ((string_empty_iff u).mpr h0))
  · rw [string_empty_iff (clean_profile_url u), string_empty_iff u]
    constructor
    · intro he
      by_contra hu
      exact cleanProfileUrlChars_ne_nil hu he
    · intro he
      show cleanProfileUrlChars u.toList = []
      rw [he]
      rfl

/-- Witness for C10 at the concrete input `"/in/foo?trk=x"`. -/
theorem claim_C10_witness :
    "/in/foo?trk=x" ≠ ""
    ∧ (clean_profile_url "/in/foo?trk=x").toList.getLast? = some '/' :=
  ⟨by decide, (claim_C10_clean_profile_url "/in/foo?trk=x").2.2.1 (by decide)⟩

/-! #### Split/join/strip lemmas for the bracket-formatter round-trip (claim C8) -/

theorem splitChar_of_not_mem {sep : Char} {g : List Char} (h : sep ∉ g) :
    splitChar sep g = [g] := by
  induction g with
  | nil => rfl
  | cons c t ih =>
    have hc : c ≠ sep := fun he => h (he ▸ List.mem_cons_self c t)
    have ht : sep ∉ t := fun hm => h (List.mem_cons_of_mem c hm)
    simp only [splitChar, ih ht]
    rw [if_neg hc]

theorem splitChar_append_sep {sep : Char} {g t : List Char} (h : sep ∉ g) :
    splitChar sep (g ++ sep :: t) = g :: splitChar sep t := by
  induction g with
  | nil =>
    obtain ⟨h0, hs, he⟩ := List.exists_cons_of_ne_nil (splitChar_ne_nil sep t)
    have hstep : splitChar sep (([] : List Char) ++ sep :: t) =
        match splitChar sep t with
        | [] => [[]]
        | g :: gs => if sep = sep then [] :: g :: gs else (sep :: g) :: gs := rfl
    rw [hstep, he]
    show (if sep = sep then [] :: h0 :: hs else (sep :: h0) :: hs) = [] :: h0 :: hs
    rw [if_pos rfl]
  | cons c g' ih =>
    have hc : c ≠ sep := fun he => h (he ▸ List.mem_cons_self c g')
    have hg : sep ∉ g' := fun hm => h (List.mem_cons_of_mem c hm)
    have ih' := ih hg
    obtain ⟨h0, hs, he⟩ := List.exists_cons_of_ne_nil (splitChar_ne_nil sep t)
    rw [he] at ih'
    have hstep : splitChar sep ((c :: g') ++ sep :: t) =
        match splitChar sep (g' ++ sep :: t) with
        | [] => [[]]
        | g :: gs => if c = sep then [] :: g :: gs else (c :: g) :: gs := rfl
    rw [hstep, ih', he]
    show (if c = sep then [] :: g' :: h0 :: hs else (c :: g') :: h0 :: hs) =
      (c :: g') :: h0 :: hs
    rw [if_neg hc]

theorem splitChar_joinChars {sep : Char} {gs : List (List Char)} (hne : gs ≠ [])
    (h : ∀ g ∈ gs, sep ∉ g) : splitChar sep (joinChars [sep] gs) = gs := by
  induction gs with
  | nil => exact absurd rfl hne
  | cons g gs' ih =>
    cases gs' with
    | nil =>
      show splitChar sep g = [g]
      exact splitChar_of_not_mem (h g (List.mem_cons_self g []))
    | cons g2 rest =>
      have hjoin : joinChars [sep] (g :: g2 :: rest) =
          g ++ sep :: joinChars [sep] (g2 :: rest) := by
        show g ++ [sep] ++ joinChars [sep] (g2 :: rest) = _
        rw [List.append_assoc]
        rfl
      rw [hjoin, splitChar_append_sep (h g (List.mem_cons_self g _))]
      rw [ih (List.cons_ne_nil g2 rest) (fun g' hg' => h g' (List.mem_cons_of_mem g hg'))]

theorem length_dropWhile_le (p : Char → Bool) (l : List Char) :
    (l.dropWhile p).length ≤ l.length := by
  induction l with
  | nil => simp
  | cons a t ih =>
    by_cases h : p a
    · simp only [List.dropWhile_cons, if_pos h, List.length_cons]
      omega
    · simp only [List.dropWhile_cons, if_neg h, List.length_cons]
      omega

theorem pyStrip_length_le (l : List Char) :
    (pyStrip l).length ≤ (l.dropWhile pyIsSpace).length := by
  unfold pyStrip
  rw [List.length_reverse]
  calc ((l.dropWhile pyIsSpace).reverse.dropWhile pyIsSpace).length
      ≤ (l.dropWhile pyIsSpace).reverse.length := length_dropWhile_le _ _
    _ = (l.dropWhile pyIsSpace).length := List.length_reverse _

theorem stripped_head_not_space {c : Char} {t : List Char}
    (heq : pyStrip (c :: t) = c :: t) : pyIsSpace c = false := by
  by_contra hsp
  have hsp' : pyIsSpace c = true := by
    cases h : pyIsSpace c
    · exact absurd h hsp
    · rfl
  have hdrop : (c :: t).dropWhile pyIsSpace = t.dropWhile pyIsSpace := by
    simp [List.dropWhile_cons, hsp']
  have hlen : (pyStrip (c :: t)).length ≤ t.length :=
    le_trans (pyStrip_length_le _) (by rw [hdrop]; exact length_dropWhile_le _ _)
  rw [heq] at hlen
  simp at hlen

theorem mem_dropWhile_of_not_space {x : Char} {l : List Char} (hx : x ∈ l)
    (hns : pyIsSpace x = false) : x ∈ l.dropWhile pyIsSpace := by
  induction l with
  | nil => simp at hx
  | cons a t ih =>
    by_cases ha : pyIsSpace a
    · rw [List.dropWhile_cons, if_pos ha]
      rcases List.mem_cons.mp hx with he | hm
      · subst he
        rw [hns] at ha
        exact absurd ha (by simp)
      · exact ih hm
    · rw [List.dropWhile_cons, if_neg ha]
      exact hx

theorem pyStrip_ne_nil_of_mem {x : Char} {l : List Char} (hx : x ∈ l)
    (hns : pyIsSpace x = false) : pyStrip l ≠ [] := by
  unfold pyStrip
  intro h0
  have h1 : x ∈ l.dropWhile pyIsSpace := mem_dropWhile_of_not_space hx hns
  have h2 : x ∈ (l.dropWhile pyIsSpace).reverse := List.mem_reverse.mpr h1
  have h3 : x ∈ (l.dropWhile pyIsSpace).reverse.dropWhile pyIsSpace :=
    mem_dropWhile_of_not_space h2 hns
  rw [show ((l.dropWhile pyIsSpace).reverse.dropWhile pyIsSpace) = [] from by
    have := congrArg List.reverse h0
    simpa using this] at h3
  simp at h3

theorem mem_joinChars_head {sep : List Char} {g : List (Char)} {gs : List (List Char)}
    {x : Char} (hx : x ∈ g) : x ∈ joinChars sep (g :: gs) := by
  cases gs with
  | nil => exact hx
  | cons g2 rest =>
    show x ∈ g ++ sep ++ joinChars sep (g2 :: rest)
    rw [List.append_assoc]
    exact List.mem_append.mpr (Or.inl hx)

theorem string_mk_toList (s : String) : String.mk s.toList = s := by
  cases s
  rfl

theorem format_ids_eq {s : String} (h : pyStrip s.toList ≠ []) :
    format_ids_for_url s =
      String.mk ('[' :: (joinChars [',']
        ((((splitChar ',' s.toList).map pyStrip).filter (· ≠ [])).map
          (fun g => '"' :: (g ++ ['"']))) ++ [']'])) := by
  unfold format_ids_for_url
  rw [if_neg h]

theorem parseFormattedIds_eq (l : List Char) :
    parseFormattedIds (String.mk ('[' :: (l ++ [']']))) =
      (splitChar ',' l).map (fun g => String.mk ((g.drop 1).dropLast)) := by
  unfold parseFormattedIds
  rw [if_neg (by intro hh; exact List.noConfusion hh)]
  have hinner : ((String.mk ('[' :: (l ++ [']']))).toList.drop 1).dropLast = l := by
    show (l ++ [']']).dropLast = l
    exact List.dropLast_concat
  rw [hinner]

/-- C8: `format_ids_for_url "4, 6, 96"` is `'["4","6","96"]'`,
`format_ids_for_url ""` is `""`, and parsing the bracket-formatter output of a
comma-separated list of non-empty, comma-free, whitespace-trimmed IDs recovers
the original ID sequence in order. -/
theorem claim_C8_format_ids_for_url (ids : List String)
    (h : ∀ s ∈ ids, s ≠ "" ∧ ',' ∉ s.toList ∧ pyStrip s.toList = s.toList) :
    format_ids_for_url "4, 6, 96" = "[\"4\",\"6\",\"96\"]"
    ∧ format_ids_for_url "" = ""
    ∧ parseFormattedIds (format_ids_for_url (pyJoin "," ids)) = ids := by
  refine ⟨by decide, rfl, ?_⟩
  cases ids with
  | nil => rfl
  | cons i rest =>
    -- the head ID gives a non-whitespace character in the joined string
    obtain ⟨hi_ne, hi_comma, hi_strip⟩ := h i (List.mem_cons_self i rest)
    have hi_list : i.toList ≠ [] := fun h0 => hi_ne ((string_empty_iff i).mpr h0)
    obtain ⟨c, t, hct⟩ := List.exists_cons_of_ne_nil hi_list
    have hc_space : pyIsSpace c = false := stripped_head_not_space (hct ▸ hi_strip)
    have hc_mem : c ∈ joinChars [','] ((i :: rest).map String.toList) :=
      @mem_joinChars_head [','] i.toList (rest.map String.toList) c
        (by rw [hct]; exact List.mem_cons_self c t)
    have hne : pyStrip (pyJoin "," (i :: rest)).toList ≠ [] :=
      pyStrip_ne_nil_of_mem hc_mem hc_space
    -- the split of the join gives back the ID character lists
    have hgs_ne : (i :: rest).map String.toList ≠ [] := by simp
    have hgs_comma : ∀ g ∈ (i :: rest).map String.toList, ',' ∉ g := by
      intro g hg
      obtain ⟨x, hx, hxe⟩ := List.mem_map.mp hg
      exact hxe ▸ (h x hx).2.1
    have hsplit : splitChar ',' (joinChars [','] ((i :: rest).map String.toList)) =
        (i :: rest).map String.toList := splitChar_joinChars hgs_ne hgs_comma
    have hstrip : ((i :: rest).map String.toList).map pyStrip =
        (i :: rest).map String.toList := by
      rw [List.map_map]
      apply List.map_congr_left
      intro x hx
      exact (h x hx).2.2
    have hfilter : ((i :: rest).map String.toList).filter (· ≠ []) =
        (i :: rest).map String.toList := by
      rw [List.filter_eq_self]
      intro g hg
      obtain ⟨x, hx, hxe⟩ := List.mem_map.mp hg
      simp only [decide_eq_true_eq]
      exact hxe ▸ fun h0 => (h x hx).1 ((string_empty_iff x).mpr h0)
    rw [format_ids_eq hne]
    rw [show (pyJoin "," (i :: rest)).toList =
      joinChars [','] ((i :: rest).map String.toList) from rfl]
    rw [hsplit, hstrip, hfilter, parseFormattedIds_eq]
    have hq_ne : ((i :: rest).map String.toList).map (fun g => '"' :: (g ++ ['"'])) ≠ [] := by
      simp
    have hq_comma : ∀ g ∈ ((i :: rest).map String.toList).map
        (fun g => '"' :: (g ++ ['"'])), ',' ∉ g := by
      intro g hg
      obtain ⟨g0, hg0, hge⟩ := List.mem_map.mp hg
      subst hge
      intro hm
      rcases List.mem_cons.mp hm with he | hm2
      · exact absurd he (by decide)
      · rcases List.mem_append.mp hm2 with h3 | h3
        · obtain ⟨x, hx, hxe⟩ := List.mem_map.mp hg0
          exact (h x hx).2.1 (hxe ▸ h3)
        · simp at h3
    rw [splitChar_joinChars hq_ne hq_comma, List.map_map, List.map_map]
    refine (List.map_congr_left ?_).trans (List.map_id (i :: rest))
    intro x hx
    show String.mk ((x.toList ++ ['"']).dropLast) = x
    rw [List.dropLast_concat]
    exact string_mk_toList x

/-- Witness for C8 at the concrete ID list `["4", "6", "96"]`. -/
theorem claim_C8_witness :
    parseFormattedIds (format_ids_for_url (pyJoin "," ["4", "6", "96"])) =
      ["4", "6", "96"] :=
  (claim_C8_format_ids_for_url ["4", "6", "96"] (by decide)).2.2

/-! ### The campaign record (`database.models.Campaign`) -/

/-- `database.models.Campaign`: targeting criteria, policy and aggregate
counters.  Timestamps are omitted (no claim depends on them); the default
message template is the model default of the source (its apostrophe written
as U+2019). -/
structure Campaign where
  id : Nat := 0
  name : String := ""
  description : Option String := none
  keywords : Option String := none
  geo_urn : Option String := none
  location_display : Option String := none
  industry_ids : Option String := none
  industry_display : Option String := none
  network : Option String := some "[\"F\",\"S\"]"
  network_display : Option String := some "1st + 2nd degree connections"
  location : Option String := none
  industry : Option String := none
  company_size : Option String := none
  experience_level : Option String := none
  daily_limit : Nat := 20
  message_template : String := "Hi {name}, I’d like to connect with you!"
  active : Bool := true
  total_sent : Nat := 0
  total_accepted : Nat := 0
  total_pending : Nat := 0
deriving DecidableEq

/-! ### `linkedin._build_search_params` (claim C7) -/

/-- Python truthiness of an optional string (`None` and `""` are falsy). -/
def truthyStr : Option String → Option String
  | some s => if s = "" then none else some s
  | none => none

/-- UTF-8 bytes of one character (for `urllib.parse.quote`). -/
def charUtf8Bytes (c : Char) : List Nat :=
  let n := c.toNat
  if n < 0x80 then [n]
  else if n < 0x800 then [0xC0 ||| (n >>> 6), 0x80 ||| (n &&& 0x3F)]
  else if n < 0x10000 then
    [0xE0 ||| (n >>> 12), 0x80 ||| ((n >>> 6) &&& 0x3F), 0x80 ||| (n &&& 0x3F)]
  else
    [0xF0 ||| (n >>> 18), 0x80 ||| ((n >>> 12) &&& 0x3F),
     0x80 ||| ((n >>> 6) &&& 0x3F), 0x80 ||| (n &&& 0x3F)]

/-- Uppercase hexadecimal digit. -/
def hexUpper (n : Nat) : Char :=
  if n < 10 then Char.ofNat (48 + n) else Char.ofNat (55 + n)

/-- Characters `urllib.parse.quote` leaves unescaped: the always-safe set
(ASCII letters, digits, `_.-~`) plus the default `safe="/"`. -/
def quoteSafeChar (c : Char) : Bool :=
  ('A' ≤ c && c ≤ 'Z') || ('a' ≤ c && c ≤ 'z') || ('0' ≤ c && c ≤ '9') ||
  c = '_' || c = '.' || c = '-' || c = '~' || c = '/'

/-- `urllib.parse.quote(s)`: percent-encode every UTF-8 byte of every unsafe
character, uppercase hex. -/
def urllibQuote (s : String) : String :=
  String.mk ((s.toList.map (fun c =>
    if quoteSafeChar c then [c]
    else ((charUtf8Bytes c).map
      (fun b => ['%', hexUpper (b / 16), hexUpper (b % 16)])).flatten)).flatten)

/-- The `params` list of `_build_search_params` before the origin tag:
keywords (URL-encoded), geoUrn (new field with legacy `location` fallback),
industry (new comma-separated field with legacy `industry` fallback, emitted
through `format_ids_for_url` when non-empty), and network (defaulting to
`["F","S"]`; the built value is never empty, so its `if network:` guard
always appends). -/
def searchParamsList (campaign : Campaign) : List String :=
  let params : List String :=
    match truthyStr campaign.keywords with
    | some k => ["keywords=" ++ urllibQuote k]
    | none => []
  let geo_urn : Option String :=
    match truthyStr campaign.geo_urn with
    | some g => some g
    | none => truthyStr campaign.location
  let params := params ++
    (match geo_urn with
     | some g => ["geoUrn=[\"" ++ g ++ "\"]"]
     | none => [])
  let industry_ids : Option String :=
    match truthyStr campaign.industry_ids with
    | some s => some s
    | none => truthyStr campaign.industry
  let params := params ++
    (match industry_ids with
     | some ids =>
       let formatted := format_ids_for_url ids
       if formatted ≠ "" then ["industry=" ++ formatted] else []
     | none => [])
  let network : String :=
    match truthyStr campaign.network with
    | some n => n
    | none => "[\"F\",\"S\"]"
  params ++ ["network=" ++ network]

/-- `linkedin._build_search_params`: the origin tag is appended last, then the
parts are joined with `&`. -/
def build_search_params (campaign : Campaign) : String :=
  pyJoin "&" (searchParamsList campaign ++ ["origin=FACETED_SEARCH"])

theorem joinChars_concat (sep x : List Char) :
    ∀ xs : List (List Char), ∃ p : List Char, joinChars sep (xs ++ [x]) = p ++ x
  | [] => ⟨[], rfl⟩
  | a :: xs => by
    obtain ⟨p, hp⟩ := joinChars_concat sep x xs
    cases xs with
    | nil => exact ⟨a ++ sep, rfl⟩
    | cons b bs =>
      refine ⟨a ++ sep ++ p, ?_⟩
      show a ++ sep ++ joinChars sep ((b :: bs) ++ [x]) = (a ++ sep ++ p) ++ x
      rw [hp]
      simp [List.append_assoc]

theorem pyJoin_concat (sep : String) (xs : List String) (x : String) :
    ∃ p : String, pyJoin sep (xs ++ [x]) = p ++ x := by
  obtain ⟨p, hp⟩ := joinChars_concat sep.toList x.toList (xs.map String.toList)
  refine ⟨String.mk p, ?_⟩
  show String.mk (joinChars sep.toList ((xs ++ [x]).map String.toList)) = String.mk p ++ x
  rw [List.map_append]
  show String.mk (joinChars sep.toList (xs.map String.toList ++ [x.toList])) = String.mk p ++ x
  rw [hp]
  rw [show String.mk p ++ x = String.mk (p ++ x.toList) from ?_]
  · cases x
    rfl

/-- The campaign of the literal end-to-end scenario of the spec. -/
def scenario_campaign : Campaign :=
  { id := 1, keywords := some "software engineer", geo_urn := some "90000084",
    industry_ids := some "4,6", network := some "[\"F\",\"S\"]" }

/-- C7: `_build_search_params` is a pure deterministic function of the
campaign fields it reads; on the scenario campaign it produces exactly the
expected query string (keywords URL-encoded, geoUrn and industry bracketed
and double-quoted, network list verbatim); and for every campaign the origin
tag `origin=FACETED_SEARCH` is appended last. -/
theorem claim_C7_build_search_params :
    (∀ c₁ c₂ : Campaign, c₁.keywords = c₂.keywords → c₁.geo_urn = c₂.geo_urn →
      c₁.location = c₂.location → c₁.industry_ids = c₂.industry_ids →
      c₁.industry = c₂.industry → c₁.network = c₂.network →
      build_search_params c₁ = build_search_params c₂)
    ∧ build_search_params scenario_campaign =
      "keywords=software%20engineer&geoUrn=[\"90000084\"]&industry=[\"4\",\"6\"]&network=[\"F\",\"S\"]&origin=FACETED_SEARCH"
    ∧ (∀ c : Campaign, ∃ p : String,
        build_search_params c = p ++ "origin=FACETED_SEARCH") := by
  refine ⟨?_, by decide, ?_⟩
  · intro c₁ c₂ h1 h2 h3 h4 h5 h6
    unfold build_search_params searchParamsList
    rw [h1, h2, h3, h4, h5, h6]
  · intro c
    exact pyJoin_concat "&" (searchParamsList c) "origin=FACETED_SEARCH"

/-- Witness for C7: determinism applied to two literally different campaign
records that agree on every field the query builder reads. -/
theorem claim_C7_witness :
    build_search_params { id := 1, keywords := some "x", name := "a" } =
      build_search_params { id := 2, keywords := some "x", name := "b" } :=
  claim_C7_build_search_params.1 _ _ rfl rfl rfl rfl rfl rfl

/-! ### The contact record (`database.models.Contact`) and its info blob (claim C9)

`Contact.get_contact_info` is `json.loads` guarded by
`except (json.JSONDecodeError, TypeError): return dict()` — malformed stored
text yields an empty mapping.  `json.loads` is embedded as a total
fuel-indexed parser of the JSON grammar (strict mode: raw control characters
inside strings are rejected); a numeric literal is kept as its lexeme, which
is enough for every claim (none inspects numeric values).
-/

/-- A parsed JSON value (the result of `json.loads`). -/
inductive Json where
  | null : Json
  | bool (b : Bool) : Json
  | num (lexeme : String) : Json
  | str (s : String) : Json
  | arr (xs : List Json) : Json
  | obj (kvs : List (String × Json)) : Json

/-- The opening-brace character, kept out of character-literal syntax. -/
def lbrace : Char := Char.ofNat 123

/-- The closing-brace character, kept out of character-literal syntax. -/
def rbrace : Char := Char.ofNat 125

/-- JSON insignificant whitespace. -/
def jsonSkipWs (l : List Char) : List Char :=
  l.dropWhile (fun c => c = ' ' || c = '\t' || c = '\n' || c = '\x0d')

/-- One-character string escapes. -/
def jsonEscChar (c : Char) : Option Char :=
  if c = '"' then some '"'
  else if c = '\\' then some '\\'
  else if c = '/' then some '/'
  else if c = 'b' then some '\x08'
  else if c = 'f' then some '\x0c'
  else if c = 'n' then some '\n'
  else if c = 'r' then some '\x0d'
  else if c = 't' then some '\t'
  else none

/-- Hexadecimal digit value. -/
def hexVal (c : Char) : Option Nat :=
  if '0' ≤ c ∧ c ≤ '9' then some (c.toNat - 48)
  else if 'A' ≤ c ∧ c ≤ 'F' then some (c.toNat - 55)
  else if 'a' ≤ c ∧ c ≤ 'f' then some (c.toNat - 87)
  else none

/-- Body of a JSON string after the opening quote: content and remainder
after the closing quote, or `none` if malformed (unterminated, bad escape, or
a raw control character, which strict `json.loads` rejects). -/
def jsonStringBody : List Char → Option (String × List Char)
  | [] => none
  | '\\' :: rest =>
    match rest with
    | [] => none
    | e :: rest2 =>
      match jsonEscChar e with
      | some c =>
        (jsonStringBody rest2).map (fun p => (String.mk (c :: p.1.toList), p.2))
      | none =>
        if e = 'u' then
          match rest2 with
          | h1 :: h2 :: h3 :: h4 :: rest3 =>
            match hexVal h1, hexVal h2, hexVal h3, hexVal h4 with
            | some a, some b, some c, some d =>
              (jsonStringBody rest3).map (fun p =>
                (String.mk (Char.ofNat (((a * 16 + b) * 16 + c) * 16 + d) :: p.1.toList), p.2))
            | _, _, _, _ => none
          | _ => none
        else none
  | '"' :: rest => some ("", rest)
  | c :: rest =>
    if c.toNat < 0x20 then none
    else (jsonStringBody rest).map (fun p => (String.mk (c :: p.1.toList), p.2))

/-- A JSON number lexeme: optional minus, `0` or a nonzero-led digit run,
optional fraction, optional exponent.  Returns the lexeme and remainder. -/
def jsonNumber (l : List Char) : Option (String × List Char) :=
  let signed := match l with
    | '-' :: r => (['-'], r)
    | _ => (([] : List Char), l)
  match signed.2 with
  | [] => none
  | c :: rest =>
    if c = '0' then
      let intPart := signed.1 ++ ['0']
      let afterInt := rest
      jsonNumberFrac intPart afterInt
    else if c.isDigit then
      let ds := rest.takeWhile Char.isDigit
      let intPart := signed.1 ++ c :: ds
      let afterInt := rest.dropWhile Char.isDigit
      jsonNumberFrac intPart afterInt
    else none
where
  /-- Optional fraction then optional exponent. -/
  jsonNumberFrac (acc : List Char) (l : List Char) : Option (String × List Char) :=
    match l with
    | '.' :: r =>
      let ds := r.takeWhile Char.isDigit
      if ds = [] then none
      else jsonNumberExp (acc ++ '.' :: ds) (r.dropWhile Char.isDigit)
    | _ => jsonNumberExp acc l
  /-- Optional exponent. -/
  jsonNumberExp (acc : List Char) (l : List Char) : Option (String × List Char) :=
    match l with
    | 'e' :: r => jsonNumberExpTail acc 'e' r
    | 'E' :: r => jsonNumberExpTail acc 'E' r
    | _ => some (String.mk acc, l)
  /-- Exponent sign and digits. -/
  jsonNumberExpTail (acc : List Char) (e : Char) (l : List Char) :
      Option (String × List Char) :=
    let signed := match l with
      | '+' :: r => (['+'], r)
      | '-' :: r => (['-'], r)
      | _ => (([] : List Char), l)
    let ds := signed.2.takeWhile Char.isDigit
    if ds = [] then none
    else some (String.mk (acc ++ e :: signed.1 ++ ds), signed.2.dropWhile Char.isDigit)

mutual

/-- Parse one JSON value (fuel-indexed; the fuel passed by `json_loads` is
always sufficient, since every recursive call follows at least one consumed
input character). -/
def jsonValue : Nat → List Char → Option (Json × List Char)
  | 0, _ => none
  | Nat.succ fuel, l =>
    match jsonSkipWs l with
    | [] => none
    | 'n' :: 'u' :: 'l' :: 'l' :: rest => some (.null, rest)
    | 't' :: 'r' :: 'u' :: 'e' :: rest => some (.bool true, rest)
    | 'f' :: 'a' :: 'l' :: 's' :: 'e' :: rest => some (.bool false, rest)
    | '"' :: rest => (jsonStringBody rest).map (fun p => (.str p.1, p.2))
    | '[' :: rest =>
      match jsonSkipWs rest with
      | ']' :: rest2 => some (.arr [], rest2)
      | _ => (jsonItems fuel rest).map (fun p => (.arr p.1, p.2))
    | c :: rest =>
      if c = lbrace then
        match jsonSkipWs rest with
        | r =>
          if r ≠ [] ∧ r.head? = some rbrace then some (.obj [], r.tail)
          else (jsonMembers fuel rest).map (fun p => (.obj p.1, p.2))
      else if c = '-' ∨ c.isDigit then
        (jsonNumber (c :: rest)).map (fun p => (.num p.1, p.2))
      else none

/-- Parse a nonempty comma-separated sequence of values closed by `]`. -/
def jsonItems : Nat → List Char → Option (List Json × List Char)
  | 0, _ => none
  | Nat.succ fuel, l =>
    match jsonValue fuel l with
    | none => none
    | some (v, r) =>
      match jsonSkipWs r with
      | ',' :: r2 => (jsonItems fuel r2).map (fun p => (v :: p.1, p.2))
      | ']' :: r2 => some ([v], r2)
      | _ => none

/-- Parse a nonempty comma-separated sequence of `"key": value` members
closed by the closing brace. -/
def jsonMembers : Nat → List Char → Option (List (String × Json) × List Char)
  | 0, _ => none
  | Nat.succ fuel, l =>
    match jsonSkipWs l with
    | '"' :: r =>
      match jsonStringBody r with
      | none => none
      | some (k, r2) =>
        match jsonSkipWs r2 with
        | ':' :: r3 =>
          match jsonValue fuel r3 with
          | none => none
          | some (v, r4) =>
            match jsonSkipWs r4 with
            | ',' :: r5 => (jsonMembers fuel r5).map (fun p => ((k, v) :: p.1, p.2))
            | c :: r5 =>
              if c = rbrace then some ([(k, v)], r5) else none
            | [] => none
        | _ => none
    | _ => none

end

/-- `json.loads`: parse one value, allow trailing whitespace only. -/
def json_loads (s : String) : Option Json :=
  match jsonValue (2 * s.length + 8) s.toList with
  | some (v, r) => if jsonSkipWs r = [] then some v else none
  | none => none

/-- `database.models.Contact`: one candidate/connection discovered under a
campaign.  Timestamps are abstract counter values; `created_at`/`updated_at`
are omitted (no claim depends on them). -/
structure Contact where
  id : Nat := 0
  campaign_id : Nat := 0
  name : String := ""
  profile_url : String := ""
  headline : Option String := none
  location : Option String := none
  company : Option String := none
  status : String := "found"
  connection_sent_at : Option Nat := none
  connection_accepted_at : Option Nat := none
  notes : Option String := none
  contact_info : String := "\x7b\x7d"
deriving DecidableEq

/-- `Contact.get_contact_info`: `json.loads` of the stored blob, with the
`except` clause returning an empty mapping. -/
def Contact.get_contact_info (c : Contact) : Json :=
  match json_loads c.contact_info with
  | some v => v
  | none => Json.obj []

/-- C9: reading the persisted contact-info blob parses the stored serialized
text back to the structured value it encodes (shown both in general and on a
concrete well-formed blob), and for every malformed stored text the reader
returns an empty mapping rather than raising. -/
theorem claim_C9_get_contact_info (c : Contact) :
    (∀ v, json_loads c.contact_info = some v → c.get_contact_info = v)
    ∧ (json_loads c.contact_info = none → c.get_contact_info = Json.obj [])
    ∧ Contact.get_contact_info
        { contact_info := "\x7b\"email\": \"a@b.c\", \"phone\": \"555\"\x7d" } =
      Json.obj [("email", Json.str "a@b.c"), ("phone", Json.str "555")] := by
  refine ⟨?_, ?_, rfl⟩
  · intro v hv
    unfold Contact.get_contact_info
    rw [hv]
  · intro hv
    unfold Contact.get_contact_info
    rw [hv]

/-- Witness for C9 at the malformed stored text `"not json"`. -/
theorem claim_C9_witness :
    Contact.get_contact_info { contact_info := "not json" } = Json.obj [] :=
  (claim_C9_get_contact_info { contact_info := "not json" }).2.1 rfl

/-! ### The connection-request engine (`linkedin.send_connection_requests`)

The candidate loop is embedded as a state machine.  Everything the remote
page answers at the decision points of the loop body is collected in a
`CandidateEnv` passed per candidate; the database, the run counters, a
timestamp counter, and instrumentation counters (navigations performed,
limit-modal inspections performed) form the threaded `EngineState`.  The
message-composition step performs no database write and cannot stop the
candidate; it only influences which send control is queried, which is
subsumed by `sendFound`.  The per-candidate `except` handler is modelled at
its most common site, an exception raised by the profile navigation
(`navThrows`), which is caught, counted as failed, and followed by
`continue`.
-/

/-- `config.settings.get_automation_settings()`. -/
structure AutomationSettings where
  connection_delay_min : Nat := 2
  connection_delay_max : Nat := 5
  daily_connection_limit : Nat := 20
deriving DecidableEq

/-- `linkedin.LinkedInProfile`. -/
structure LinkedInProfile where
  name : String := ""
  profile_url : String := ""
  headline : Option String := none
  location : Option String := none
  company : Option String := none
  mutual_connections : Nat := 0
deriving DecidableEq

/-- The observable content of a `div.artdeco-modal.ip-fuse-limit-alert`
modal: whether the locked icon is present, and the header text if the header
element exists. -/
structure LimitModal where
  hasLockedIcon : Bool := false
  headerText : Option String := none
deriving DecidableEq

/-- The header phrases `_is_true_limit` accepts (a Python set literal; the
source lists the English phrase twice).  Apostrophes are written `\x27`. -/
def true_texts : List String :=
  ["has alcanzado el límite semanal de invitaciones",
   "has alcanzado el límite semanal de invitaciones.",
   "you\x27ve reached the weekly invitation limit",
   "you\x27ve reached the weekly invitation limit"]

/-- `linkedin._is_true_limit`: the locked icon wins; otherwise the stripped,
lowercased header text is matched against the known phrases by substring. -/
def is_true_limit (modal : LimitModal) : Bool :=
  if modal.hasLockedIcon then true
  else
    let header : List Char :=
      match modal.headerText with
      | some t => pyLower (pyStrip t.toList)
      | none => []
    true_texts.any (fun t => pyInChars t.toList header)

/-- The remote page's answers at the decision points of one candidate's
processing, in the order the loop body reaches them. -/
structure CandidateEnv where
  /-- `page.goto` (or a later driver call before any database write) raises. -/
  navThrows : Bool := false
  /-- `div.pvs-sticky-header-profile-actions` is present. -/
  containerFound : Bool := true
  /-- a visible Connect control was located (directly or in the dropdown). -/
  connectFound : Bool := true
  /-- a Pending control is present (only consulted when no Connect). -/
  pendingFound : Bool := false
  /-- `label[for="email"]` appears after the connect click. -/
  emailRequired : Bool := false
  /-- a send control was located in the modal. -/
  sendFound : Bool := true
  /-- the limit modal found after the send click, if any. -/
  limitModal : Option LimitModal := none
deriving DecidableEq

/-- The state threaded through the candidate loop. -/
structure EngineState where
  db : List Contact := []
  nextId : Nat := 0
  clock : Nat := 0
  sent_count : Nat := 0
  failed_count : Nat := 0
  existing_count : Nat := 0
  /-- number of `page.goto` calls performed by the loop. -/
  navigations : Nat := 0
  /-- number of inspections of the page for the limit modal. -/
  limit_checks : Nat := 0
deriving DecidableEq

/-- Why the candidate loop stopped early. -/
inductive HaltReason where
  | limitReached : HaltReason
  | dailyLimit : HaltReason
deriving DecidableEq

/-- Outcome of one loop iteration: `continue` to the next candidate, or
`break` out of the loop. -/
inductive StepResult where
  | next (s : EngineState) : StepResult
  | halt (r : HaltReason) (s : EngineState) : StepResult
deriving DecidableEq

/-- The contact row the loop writes for the current candidate. -/
def mkContact (s : EngineState) (campaign : Campaign) (p : LinkedInProfile)
    (status : String) (notes : Option String) (sentAt : Option Nat) : Contact :=
  { id := s.nextId, campaign_id := campaign.id, name := p.name,
    profile_url := p.profile_url, headline := p.headline, location := p.location,
    company := p.company, status := status, connection_sent_at := sentAt,
    connection_accepted_at := none, notes := notes }

/-- `db_manager.create_contact`. -/
def createContact (s : EngineState) (c : Contact) : EngineState :=
  { s with db := s.db ++ [c], nextId := s.nextId + 1 }

/-- One iteration of the candidate loop of `send_connection_requests`
(linkedin.py lines 420-763). -/
def processCandidate (settings : AutomationSettings) (campaign : Campaign)
    (s : EngineState) (p : LinkedInProfile) (env : CandidateEnv) : StepResult :=
  -- step 1: de-duplication by profile address over the Contact table
  if s.db.any (fun c => c.profile_url == p.profile_url) then
    .next { s with existing_count := s.existing_count + 1 }
  else
    -- step 2: navigate to the profile page
    let s := { s with navigations := s.navigations + 1 }
    if env.navThrows then
      -- per-candidate `except`: log, count as failed, continue
      .next { s with failed_count := s.failed_count + 1 }
    -- step 3: reachability check
    else if !env.containerFound then
      let s := createContact s
        (mkContact s campaign p "found" (some "Profile not accessible or private") none)
      .next { s with failed_count := s.failed_count + 1 }
    -- steps 4-5: control discovery, pending fallback
    else if !env.connectFound then
      if env.pendingFound then
        let s := createContact s
          (mkContact s campaign p "pending" (some "Already sent (found Pending button)") none)
        .next { s with existing_count := s.existing_count + 1 }
      else
        let s := createContact s
          (mkContact s campaign p "found"
            (some "No connect button available - likely already connected") none)
        .next { s with failed_count := s.failed_count + 1 }
    -- step 6: email-required modal after the connect click
    else if env.emailRequired then
      let s := createContact s
        (mkContact s campaign p "found" (some "Email required for connection") none)
      .next { s with failed_count := s.failed_count + 1 }
    -- step 7: send control
    else if !env.sendFound then
      let s := createContact s
        (mkContact s campaign p "found" (some "Send button not found after clicking Connect") none)
      .next { s with failed_count := s.failed_count + 1 }
    else
      -- send clicked; the one limit-modal inspection of the loop body
      let s := { s with limit_checks := s.limit_checks + 1 }
      let recordSent : EngineState → StepResult := fun s =>
        let s := createContact s
          (mkContact s campaign p "sent" none (some s.clock))
        let s := { s with clock := s.clock + 1, sent_count := s.sent_count + 1 }
        if s.sent_count ≥ settings.daily_connection_limit then .halt .dailyLimit s
        else .next s
      match env.limitModal with
      | some m =>
        if is_true_limit m then
          -- hard stop: break before recording anything for this candidate
          .halt .limitReached s
        else
          -- near-limit warning: dismiss and continue normally
          recordSent s
      | none => recordSent s

/-- The candidate loop: returns the final state, the break reason (if the
loop exited early), and the unprocessed suffix. -/
def runLoop (settings : AutomationSettings) (campaign : Campaign) :
    EngineState → List (LinkedInProfile × CandidateEnv) →
    EngineState × Option HaltReason × List (LinkedInProfile × CandidateEnv)
  | s, [] => (s, none, [])
  | s, (p, env) :: rest =>
    match processCandidate settings campaign s p env with
    | .next s2 => runLoop settings campaign s2 rest
    | .halt r s2 => (s2, some r, rest)

/-- `operations.update_campaign_stats` (claim C5): recompute the campaign
counters from its contact rows. -/
def update_campaign_stats (campaign : Campaign) (contacts : List Contact) : Campaign :=
  let cs := contacts.filter (fun c => c.campaign_id == campaign.id)
  { campaign with
    total_sent := (cs.filter (fun c =>
      c.status == "sent" || c.status == "accepted" || c.status == "declined")).length
    total_accepted := (cs.filter (fun c => c.status == "accepted")).length
    total_pending := (cs.filter (fun c => c.status == "sent")).length }

/-- The ephemeral run summary returned to the caller. -/
structure RunSummary where
  sent : Nat
  failed : Nat
  existing : Nat
  total_processed : Nat
deriving DecidableEq

/-- Everything observable after one engine invocation. -/
structure RunResult where
  summary : RunSummary
  state : EngineState
  campaign : Campaign
  halted : Option HaltReason
  leftover : List (LinkedInProfile × CandidateEnv)
deriving DecidableEq

/-- `linkedin.send_connection_requests`: run the candidate loop from zeroed
per-run counters, recompute the campaign statistics, and return the summary. -/
def send_connection_requests (settings : AutomationSettings) (campaign : Campaign)
    (db : List Contact) (nextId clock : Nat)
    (candidates : List (LinkedInProfile × CandidateEnv)) : RunResult :=
  let s0 : EngineState := { db := db, nextId := nextId, clock := clock }
  let r := runLoop settings campaign s0 candidates
  { summary := { sent := r.1.sent_count, failed := r.1.failed_count,
                 existing := r.1.existing_count,
                 total_processed := r.1.sent_count + r.1.failed_count + r.1.existing_count },
    state := r.1,
    campaign := update_campaign_stats campaign r.1.db,
    halted := r.2.1,
    leftover := r.2.2 }

/-! #### Per-candidate characterization of the loop body -/

/-- The state carried by a step outcome. -/
def StepResult.state : StepResult → EngineState
  | .next s => s
  | .halt _ s => s

/-- Whether the limit modal found after the send click is a confirmed true
limit (`false` when no modal appeared). -/
def envTrueLimit (env : CandidateEnv) : Bool :=
  match env.limitModal with
  | some m => is_true_limit m
  | none => false

/-- The candidate's processing reaches the send click (and hence the one
limit-modal inspection). -/
def reachesSendClick (s : EngineState) (p : LinkedInProfile) (env : CandidateEnv) : Bool :=
  !(s.db.any (fun c => c.profile_url == p.profile_url)) && !env.navThrows &&
  env.containerFound && env.connectFound && !env.emailRequired && env.sendFound

/-- Complete, guard-partitioned case analysis of one loop iteration: exactly
one of the nine mutually exclusive branches fires, and each pins down the
entire resulting state. -/
theorem processCandidate_cases (settings : AutomationSettings) (campaign : Campaign)
    (s : EngineState) (p : LinkedInProfile) (env : CandidateEnv) :
    -- step-1 skip: existing contact, nothing else happens
    (s.db.any (fun c => c.profile_url == p.profile_url) = true ∧
      processCandidate settings campaign s p env =
        .next { s with existing_count := s.existing_count + 1 })
    -- caught per-candidate exception: counted as failed, no row
    ∨ (s.db.any (fun c => c.profile_url == p.profile_url) = false ∧
        env.navThrows = true ∧
        processCandidate settings campaign s p env =
          .next { s with navigations := s.navigations + 1,
                         failed_count := s.failed_count + 1 })
    -- inaccessible profile: `found` row, failed
    ∨ (s.db.any (fun c => c.profile_url == p.profile_url) = false ∧
        env.navThrows = false ∧ env.containerFound = false ∧
        processCandidate settings campaign s p env =
          .next { s with navigations := s.navigations + 1,
                         db := s.db ++ [mkContact s campaign p "found"
                           (some "Profile not accessible or private") none],
                         nextId := s.nextId + 1,
                         failed_count := s.failed_count + 1 })
    -- pending already: `pending` row, existing
    ∨ (s.db.any (fun c => c.profile_url == p.profile_url) = false ∧
        env.navThrows = false ∧ env.containerFound = true ∧
        env.connectFound = false ∧ env.pendingFound = true ∧
        processCandidate settings campaign s p env =
          .next { s with navigations := s.navigations + 1,
                         db := s.db ++ [mkContact s campaign p "pending"
                           (some "Already sent (found Pending button)") none],
                         nextId := s.nextId + 1,
                         existing_count := s.existing_count + 1 })
    -- no connect control at all: `found` row, failed
    ∨ (s.db.any (fun c => c.profile_url == p.profile_url) = false ∧
        env.navThrows = false ∧ env.containerFound = true ∧
        env.connectFound = false ∧ env.pendingFound = false ∧
        processCandidate settings campaign s p env =
          .next { s with navigations := s.navigations + 1,
                         db := s.db ++ [mkContact s campaign p "found"
                           (some "No connect button available - likely already connected") none],
                         nextId := s.nextId + 1,
                         failed_count := s.failed_count + 1 })
    -- email-required modal: `found` row, failed
    ∨ (s.db.any (fun c => c.profile_url == p.profile_url) = false ∧
        env.navThrows = false ∧ env.containerFound = true ∧
        env.connectFound = true ∧ env.emailRequired = true ∧
        processCandidate settings campaign s p env =
          .next { s with navigations := s.navigations + 1,
                         db := s.db ++ [mkContact s campaign p "found"
                           (some "Email required for connection") none],
                         nextId := s.nextId + 1,
                         failed_count := s.failed_count + 1 })
    -- send control missing: `found` row, failed
    ∨ (s.db.any (fun c => c.profile_url == p.profile_url) = false ∧
        env.navThrows = false ∧ env.containerFound = true ∧
        env.connectFound = true ∧ env.emailRequired = false ∧
        env.sendFound = false ∧
        processCandidate settings campaign s p env =
          .next { s with navigations := s.navigations + 1,
                         db := s.db ++ [mkContact s campaign p "found"
                           (some "Send button not found after clicking Connect") none],
                         nextId := s.nextId + 1,
                         failed_count := s.failed_count + 1 })
    -- confirmed limit modal after the send click: hard stop, nothing recorded
    ∨ (s.db.any (fun c => c.profile_url == p.profile_url) = false ∧
        env.navThrows = false ∧ env.containerFound = true ∧
        env.connectFound = true ∧ env.emailRequired = false ∧
        env.sendFound = true ∧ envTrueLimit env = true ∧
        processCandidate settings campaign s p env =
          .halt .limitReached { s with navigations := s.navigations + 1,
                                       limit_checks := s.limit_checks + 1 })
    -- success: `sent` row with timestamp, then the daily-limit check
    ∨ (s.db.any (fun c => c.profile_url == p.profile_url) = false ∧
        env.navThrows = false ∧ env.containerFound = true ∧
        env.connectFound = true ∧ env.emailRequired = false ∧
        env.sendFound = true ∧ envTrueLimit env = false ∧
        ((s.sent_count + 1 ≥ settings.daily_connection_limit ∧
          processCandidate settings campaign s p env =
            .halt .dailyLimit { s with navigations := s.navigations + 1,
                                       limit_checks := s.limit_checks + 1,
                                       db := s.db ++ [mkContact s campaign p "sent" none (some s.clock)],
                                       nextId := s.nextId + 1,
                                       clock := s.clock + 1,
                                       sent_count := s.sent_count + 1 })
         ∨ (¬ (s.sent_count + 1 ≥ settings.daily_connection_limit) ∧
          processCandidate settings campaign s p env =
            .next { s with navigations := s.navigations + 1,
                           limit_checks := s.limit_checks + 1,
                           db := s.db ++ [mkContact s campaign p "sent" none (some s.clock)],
                           nextId := s.nextId + 1,
                           clock := s.clock + 1,
                           sent_count := s.sent_count + 1 }))) := by
  by_cases h1 : s.db.any (fun c => c.profile_url == p.profile_url)
  · exact Or.inl ⟨h1, by unfold processCandidate; rw [if_pos h1]⟩
  · have h1' : s.db.any (fun c => c.profile_url == p.profile_url) = false :=
      Bool.not_eq_true _ ▸ (by simpa using h1)
    by_cases h2 : env.navThrows
    · refine Or.inr (Or.inl ⟨h1', h2, ?_⟩)
      unfold processCandidate
      rw [if_neg (by simp [h1']), if_pos h2]
    · have h2' : env.navThrows = false := by simpa using h2
      by_cases h3 : env.containerFound
      · by_cases h4 : env.connectFound
        · by_cases h5 : env.emailRequired
          · -- email required
            refine Or.inr (Or.inr (Or.inr (Or.inr (Or.inr (Or.inl
              ⟨h1', h2', h3, h4, h5, ?_⟩)))))
            unfold processCandidate
            rw [if_neg (by simp [h1']), if_neg (by simp [h2']),
              if_neg (by simp [h3]), if_neg (by simp [h4]), if_pos h5]
            rfl
          · have h5' : env.emailRequired = false := by simpa using h5
            by_cases h6 : env.sendFound
            · -- send click reached
              have hbase : processCandidate settings campaign s p env =
                  (let s := { s with navigations := s.navigations + 1 }
                   let s := { s with limit_checks := s.limit_checks + 1 }
                   let recordSent : EngineState → StepResult := fun s =>
                     let s := createContact s
                       (mkContact s campaign p "sent" none (some s.clock))
                     let s := { s with clock := s.clock + 1, sent_count := s.sent_count + 1 }
                     if s.sent_count ≥ settings.daily_connection_limit then
                       .halt .dailyLimit s
                     else .next s
                   match env.limitModal with
                   | some m =>
                     if is_true_limit m then .halt .limitReached s
                     else recordSent s
                   | none => recordSent s) := by
                unfold processCandidate
                rw [if_neg (by simp [h1']), if_neg (by simp [h2']),
                  if_neg (by simp [h3]), if_neg (by simp [h4]), if_neg (by simp [h5']),
                  if_neg (by simp [h6])]
              by_cases h7 : envTrueLimit env
              · -- true limit: halt
                refine Or.inr (Or.inr (Or.inr (Or.inr (Or.inr (Or.inr (Or.inr (Or.inl
                  ⟨h1', h2', h3, h4, h5', h6, h7, ?_⟩)))))))
                rw [hbase]
                unfold envTrueLimit at h7
                match hm : env.limitModal with
                | some m =>
                  rw [hm] at h7
                  have h7m : is_true_limit m = true := h7
                  simp only [h7m, if_true]
                | none =>
                  rw [hm] at h7
                  simp at h7
              · have h7' : envTrueLimit env = false := by simpa using h7
                refine Or.inr (Or.inr (Or.inr (Or.inr (Or.inr (Or.inr (Or.inr (Or.inr
                  ⟨h1', h2', h3, h4, h5', h6, h7', ?_⟩)))))))
                have hsent : (let s := { s with navigations := s.navigations + 1 }
                   let s := { s with limit_checks := s.limit_checks + 1 }
                   let recordSent : EngineState → StepResult := fun s =>
                     let s := createContact s
                       (mkContact s campaign p "sent" none (some s.clock))
                     let s := { s with clock := s.clock + 1, sent_count := s.sent_count + 1 }
                     if s.sent_count ≥ settings.daily_connection_limit then
                       .halt .dailyLimit s
                     else .next s
                   match env.limitModal with
                   | some m =>
                     if is_true_limit m then .halt .limitReached s
                     else recordSent s
                   | none => recordSent s) =
                    (if s.sent_count + 1 ≥ settings.daily_connection_limit then
                      StepResult.halt .dailyLimit
                        { s with navigations := s.navigations + 1,
                                 limit_checks := s.limit_checks + 1,
                                 db := s.db ++ [mkContact s campaign p "sent" none (some s.clock)],
                                 nextId := s.nextId + 1,
                                 clock := s.clock + 1,
                                 sent_count := s.sent_count + 1 }
                     else StepResult.next
                        { s with navigations := s.navigations + 1,
                                 limit_checks := s.limit_checks + 1,
                                 db := s.db ++ [mkContact s campaign p "sent" none (some s.clock)],
                                 nextId := s.nextId + 1,
                                 clock := s.clock + 1,
                                 sent_count := s.sent_count + 1 }) := by
                  unfold envTrueLimit at h7'
                  match hm : env.limitModal with
                  | some m =>
                    rw [hm] at h7'
                    have h7m : is_true_limit m = false := h7'
                    simp only [h7m, Bool.false_eq_true, if_false]
                    rfl
                  | none =>
                    rfl
                by_cases h8 : s.sent_count + 1 ≥ settings.daily_connection_limit
                · exact Or.inl ⟨h8, by rw [hbase, hsent, if_pos h8]⟩
                · exact Or.inr ⟨h8, by rw [hbase, hsent, if_neg h8]⟩
            · have h6' : env.sendFound = false := by simpa using h6
              refine Or.inr (Or.inr (Or.inr (Or.inr (Or.inr (Or.inr (Or.inl
                ⟨h1', h2', h3, h4, h5', h6', ?_⟩))))))
              unfold processCandidate
              rw [if_neg (by simp [h1']), if_neg (by simp [h2']),
                if_neg (by simp [h3]), if_neg (by simp [h4]), if_neg (by simp [h5']),
                if_pos (by simp [h6'])]
              rfl
        · have h4' : env.connectFound = false := by simpa using h4
          by_cases h5 : env.pendingFound
          · refine Or.inr (Or.inr (Or.inr (Or.inl ⟨h1', h2', h3, h4', h5, ?_⟩)))
            unfold processCandidate
            rw [if_neg (by simp [h1']), if_neg (by simp [h2']),
              if_neg (by simp [h3]), if_pos (by simp [h4']), if_pos h5]
            rfl
          · have h5' : env.pendingFound = false := by simpa using h5
            refine Or.inr (Or.inr (Or.inr (Or.inr (Or.inl ⟨h1', h2', h3, h4', h5', ?_⟩))))
            unfold processCandidate
            rw [if_neg (by simp [h1']), if_neg (by simp [h2']),
              if_neg (by simp [h3]), if_pos (by simp [h4']), if_neg (by simp [h5'])]
            rfl
      · have h3' : env.containerFound = false := by simpa using h3
        refine Or.inr (Or.inr (Or.inl ⟨h1', h2', h3', ?_⟩))
        unfold processCandidate
        rw [if_neg (by simp [h1']), if_neg (by simp [h2']), if_pos (by simp [h3'])]
        rfl

/-- The state after the confirmed-limit hard stop: only the instrumentation
counters moved; nothing was recorded for the triggering candidate. -/
def stateAfterLimitHalt (s : EngineState) : EngineState :=
  { s with navigations := s.navigations + 1, limit_checks := s.limit_checks + 1 }

/-- The state after a successful send was recorded for candidate `p`. -/
def stateAfterSent (campaign : Campaign) (p : LinkedInProfile) (s : EngineState) :
    EngineState :=
  { s with navigations := s.navigations + 1, limit_checks := s.limit_checks + 1,
           db := s.db ++ [mkContact s campaign p "sent" none (some s.clock)],
           nextId := s.nextId + 1, clock := s.clock + 1,
           sent_count := s.sent_count + 1 }

theorem processCandidate_halt {settings : AutomationSettings} {campaign : Campaign}
    {s : EngineState} {p : LinkedInProfile} {env : CandidateEnv} {r : HaltReason}
    {s' : EngineState}
    (h : processCandidate settings campaign s p env = .halt r s') :
    (r = .limitReached ∧ s' = stateAfterLimitHalt s)
    ∨ (r = .dailyLimit ∧ s.sent_count + 1 ≥ settings.daily_connection_limit
        ∧ s' = stateAfterSent campaign p s) := by
  rcases processCandidate_cases settings campaign s p env with
    ⟨_, he⟩ | ⟨_, _, he⟩ | ⟨_, _, _, he⟩ | ⟨_, _, _, _, _, he⟩ | ⟨_, _, _, _, _, he⟩ |
    ⟨_, _, _, _, _, he⟩ | ⟨_, _, _, _, _, _, he⟩ | ⟨_, _, _, _, _, _, _, he⟩ |
    ⟨_, _, _, _, _, _, _, hrest⟩
  · exact StepResult.noConfusion (h.symm.trans he)
  · exact StepResult.noConfusion (h.symm.trans he)
  · exact StepResult.noConfusion (h.symm.trans he)
  · exact StepResult.noConfusion (h.symm.trans he)
  · exact StepResult.noConfusion (h.symm.trans he)
  · exact StepResult.noConfusion (h.symm.trans he)
  · exact StepResult.noConfusion (h.symm.trans he)
  · have heq := h.symm.trans he
    injection heq with h1 h2
    exact Or.inl ⟨h1, h2⟩
  · rcases hrest with ⟨hge, he⟩ | ⟨hlt, he⟩
    · have heq := h.symm.trans he
      injection heq with h1 h2
      exact Or.inr ⟨h1, hge, h2⟩
    · exact StepResult.noConfusion (h.symm.trans he)

theorem runLoop_cons_next {settings : AutomationSettings} {campaign : Campaign}
    {s s2 : EngineState} {p : LinkedInProfile} {env : CandidateEnv}
    {rest : List (LinkedInProfile × CandidateEnv)}
    (h : processCandidate settings campaign s p env = .next s2) :
    runLoop settings campaign s ((p, env) :: rest) = runLoop settings campaign s2 rest := by
  show (match processCandidate settings campaign s p env with
    | StepResult.next s2 => runLoop settings campaign s2 rest
    | StepResult.halt r s2 => (s2, some r, rest)) = runLoop settings campaign s2 rest
  rw [h]

theorem runLoop_cons_halt {settings : AutomationSettings} {campaign : Campaign}
    {s s2 : EngineState} {p : LinkedInProfile} {env : CandidateEnv} {r : HaltReason}
    {rest : List (LinkedInProfile × CandidateEnv)}
    (h : processCandidate settings campaign s p env = .halt r s2) :
    runLoop settings campaign s ((p, env) :: rest) = (s2, some r, rest) := by
  show (match processCandidate settings campaign s p env with
    | StepResult.next s2 => runLoop settings campaign s2 rest
    | StepResult.halt r s2 => (s2, some r, rest)) = (s2, some r, rest)
  rw [h]

theorem runLoop_no_halt_no_leftover {settings : AutomationSettings} {campaign : Campaign} :
    ∀ {l : List (LinkedInProfile × CandidateEnv)} {s s' : EngineState}
      {rest : List (LinkedInProfile × CandidateEnv)},
      runLoop settings campaign s l = (s', none, rest) → rest = []
  | [], s, s', rest, h => by
    unfold runLoop at h
    exact (congrArg (fun t => t.2.2) h).symm
  | (p, env) :: t, s, s', rest, h => by
    cases hpc : processCandidate settings campaign s p env with
    | next s2 =>
      rw [runLoop_cons_next hpc] at h
      exact runLoop_no_halt_no_leftover h
    | halt r s2 =>
      rw [runLoop_cons_halt hpc] at h
      exact Option.noConfusion (congrArg (fun t => t.2.1) h)

theorem runLoop_halt_decomp {settings : AutomationSettings} {campaign : Campaign} :
    ∀ {l : List (LinkedInProfile × CandidateEnv)} {s s' : EngineState} {r : HaltReason}
      {rest : List (LinkedInProfile × CandidateEnv)},
      runLoop settings campaign s l = (s', some r, rest) →
      ∃ pre p env s1, l = pre ++ (p, env) :: rest
        ∧ runLoop settings campaign s pre = (s1, none, [])
        ∧ processCandidate settings campaign s1 p env = .halt r s'
  | [], s, s', r, rest, h => by
    unfold runLoop at h
    exact Option.noConfusion (congrArg (fun t => t.2.1) h)
  | (p0, env0) :: t, s, s', r, rest, h => by
    cases hpc : processCandidate settings campaign s p0 env0 with
    | next s2 =>
      rw [runLoop_cons_next hpc] at h
      obtain ⟨pre, p, env, s1, hdec, hpre, hstep⟩ := runLoop_halt_decomp h
      exact ⟨(p0, env0) :: pre, p, env, s1, by rw [hdec]; rfl,
        by rw [runLoop_cons_next hpc]; exact hpre, hstep⟩
    | halt r0 s2 =>
      rw [runLoop_cons_halt hpc] at h
      have h1 : s2 = s' := congrArg (fun t => t.1) h
      have h2 := congrArg (fun t => t.2.1) h
      have h3 : t = rest := congrArg (fun t => t.2.2) h
      injection h2 with h2'
      exact ⟨[], p0, env0, s, by rw [h3]; rfl, rfl, by rw [hpc, h1, h2']⟩

/-! #### Claim C5: recomputed campaign counters -/

/-- C5: after `update_campaign_stats`, the campaign counters equal the stated
derivations over its contact set: `total_sent` counts contacts with status in
`{sent, accepted, declined}`, `total_accepted` counts `accepted`, and
`total_pending` counts `sent`. -/
theorem claim_C5_update_campaign_stats (campaign : Campaign) (contacts : List Contact) :
    (update_campaign_stats campaign contacts).total_sent =
      (contacts.filter (fun c => c.campaign_id == campaign.id)).countP
        (fun c => c.status == "sent" || c.status == "accepted" || c.status == "declined")
    ∧ (update_campaign_stats campaign contacts).total_accepted =
      (contacts.filter (fun c => c.campaign_id == campaign.id)).countP
        (fun c => c.status == "accepted")
    ∧ (update_campaign_stats campaign contacts).total_pending =
      (contacts.filter (fun c => c.campaign_id == campaign.id)).countP
        (fun c => c.status == "sent") := by
  refine ⟨?_, ?_, ?_⟩ <;> (rw [List.countP_eq_length_filter]; rfl)

/-! #### De-duplication invariants (claim C3) -/

theorem url_not_mem_of_any_false {db : List Contact} {u : String}
    (h : db.any (fun c => c.profile_url == u) = false) :
    u ∉ db.map (fun c => c.profile_url) := by
  intro hm
  obtain ⟨c, hc, he⟩ := List.mem_map.mp hm
  have hall := List.any_eq_false.mp h c hc
  rw [he] at hall
  simp at hall

theorem nodup_append_singleton {α : Type} {l : List α} {x : α} (h : l.Nodup)
    (hx : x ∉ l) : (l ++ [x]).Nodup := by
  rw [List.nodup_append]
  exact ⟨h, List.nodup_singleton x, fun a ha hb => hx (by simpa using (List.mem_singleton.mp hb ▸ ha))⟩

theorem processCandidate_state_nodup {settings : AutomationSettings}
    {campaign : Campaign} {s : EngineState} {p : LinkedInProfile} {env : CandidateEnv}
    (h : (s.db.map (fun c => c.profile_url)).Nodup) :
    (((processCandidate settings campaign s p env).state).db.map
      (fun c => c.profile_url)).Nodup := by
  rcases processCandidate_cases settings campaign s p env with
    ⟨_, he⟩ | ⟨_, _, he⟩ | ⟨h1, _, _, he⟩ | ⟨h1, _, _, _, _, he⟩ | ⟨h1, _, _, _, _, he⟩ |
    ⟨h1, _, _, _, _, he⟩ | ⟨h1, _, _, _, _, _, he⟩ | ⟨h1, _, _, _, _, _, _, he⟩ |
    ⟨h1, _, _, _, _, _, _, hrest⟩
  · rw [he]; exact h
  · rw [he]; exact h
  · rw [he]
    simp only [StepResult.state, List.map_append]
    exact nodup_append_singleton h (url_not_mem_of_any_false h1)
  · rw [he]
    simp only [StepResult.state, List.map_append]
    exact nodup_append_singleton h (url_not_mem_of_any_false h1)
  · rw [he]
    simp only [StepResult.state, List.map_append]
    exact nodup_append_singleton h (url_not_mem_of_any_false h1)
  · rw [he]
    simp only [StepResult.state, List.map_append]
    exact nodup_append_singleton h (url_not_mem_of_any_false h1)
  · rw [he]
    simp only [StepResult.state, List.map_append]
    exact nodup_append_singleton h (url_not_mem_of_any_false h1)
  · rw [he]; exact h
  · rcases hrest with ⟨_, he⟩ | ⟨_, he⟩ <;>
      (rw [he]
       simp only [StepResult.state, List.map_append]
       exact nodup_append_singleton h (url_not_mem_of_any_false h1))

theorem runLoop_preserves_nodup {settings : AutomationSettings} {campaign : Campaign} :
    ∀ {l : List (LinkedInProfile × CandidateEnv)} {s : EngineState},
      (s.db.map (fun c => c.profile_url)).Nodup →
      (((runLoop settings campaign s l).1).db.map (fun c => c.profile_url)).Nodup
  | [], s, h => h
  | (p, env) :: t, s, h => by
    cases hpc : processCandidate settings campaign s p env with
    | next s2 =>
      rw [runLoop_cons_next hpc]
      have h2 : (s2.db.map (fun c => c.profile_url)).Nodup := by
        have := @processCandidate_state_nodup settings campaign s p env h
        rw [hpc] at this
        exact this
      exact runLoop_preserves_nodup h2
    | halt r s2 =>
      rw [runLoop_cons_halt hpc]
      have := @processCandidate_state_nodup settings campaign s p env h
      rw [hpc] at this
      exact this

theorem pair_count_le_one {cid : Nat} {u : String} :
    ∀ {db : List Contact}, (db.map (fun c => c.profile_url)).Nodup →
      (db.filter (fun c => c.campaign_id == cid && c.profile_url == u)).length ≤ 1
  | [], _ => by simp
  | c :: t, h => by
    rw [List.map_cons, List.nodup_cons] at h
    by_cases hc : (c.campaign_id == cid && c.profile_url == u) = true
    · have hurl : c.profile_url = u := by
        have hb := (Bool.and_eq_true _ _).mp hc
        simpa using hb.2
      have ht : t.filter (fun c => c.campaign_id == cid && c.profile_url == u) = [] := by
        rw [List.filter_eq_nil_iff]
        intro x hx hb
        have hxu : x.profile_url = u := by
          have hb2 := (Bool.and_eq_true _ _).mp hb
          simpa using hb2.2
        apply h.1
        rw [hurl]
        exact List.mem_map.mpr ⟨x, hx, hxu⟩
      rw [List.filter_cons, if_pos hc, ht]
      simp
    · rw [List.filter_cons, if_neg hc]
      exact pair_count_le_one h.2

/-! #### Claims C1-C4: the engine loop -/

/-- Concrete per-candidate environments and profiles for the literal
scenarios. -/
def env_ok : CandidateEnv := {}

/-- Environment whose send click triggers the confirmed limit modal. -/
def env_limit : CandidateEnv := { limitModal := some { hasLockedIcon := true } }

/-- Environment whose profile navigation raises. -/
def env_throw : CandidateEnv := { navThrows := true }

def profileA : LinkedInProfile :=
  { name := "Ana Alvarez", profile_url := "https://www.linkedin.com/in/u1/" }

def profileB : LinkedInProfile :=
  { name := "Bob Baker", profile_url := "https://www.linkedin.com/in/u2/" }

def profileC : LinkedInProfile :=
  { name := "Cem Celik", profile_url := "https://www.linkedin.com/in/u3/" }

/-- A pre-existing contact row for `profileB`. -/
def row_for_profileB : Contact :=
  { id := 7, campaign_id := 1, name := "Bob Baker",
    profile_url := "https://www.linkedin.com/in/u2/", status := "sent" }

/-- C1 counterexample: a candidate whose processing begins (the de-duplication
check missed and navigation started) and whose navigation then raises is
caught by the per-candidate handler and counted as failed, but no Contact row
is created for it — refuting the claim that a Contact row is created in every
outcome path including the caught-exception path. -/
theorem claim_C1_counterexample :
    (send_connection_requests {} { id := 1 } [] 0 0
      [(profileA, env_throw)]).summary.failed = 1
    ∧ (send_connection_requests {} { id := 1 } [] 0 0
      [(profileA, env_throw)]).state.db = [] :=
  ⟨rfl, rfl⟩

/-- C1 (amended): per processed candidate, exactly one of
{skip-as-existing, caught-exception-as-failed, record-as-found/failed,
record-as-pending, record-as-sent, rate-limit-halt} happens — the branches
below are guard-partitioned and each determines the whole resulting state —
and a Contact row is created exactly in the three record outcomes; the caught
exception increments failed without a row, and the rate-limit halt records
nothing for the triggering candidate. -/
theorem claim_C1_per_candidate_outcomes (settings : AutomationSettings)
    (campaign : Campaign) (s : EngineState) (p : LinkedInProfile)
    (env : CandidateEnv) :
    -- step-1 skip: existing contact, nothing else happens
    (s.db.any (fun c => c.profile_url == p.profile_url) = true ∧
      processCandidate settings campaign s p env =
        .next { s with existing_count := s.existing_count + 1 })
    -- caught per-candidate exception: counted as failed, no row
    ∨ (s.db.any (fun c => c.profile_url == p.profile_url) = false ∧
        env.navThrows = true ∧
        processCandidate settings campaign s p env =
          .next { s with navigations := s.navigations + 1,
                         failed_count := s.failed_count + 1 })
    -- inaccessible profile: `found` row, failed
    ∨ (s.db.any (fun c => c.profile_url == p.profile_url) = false ∧
        env.navThrows = false ∧ env.containerFound = false ∧
        processCandidate settings campaign s p env =
          .next { s with navigations := s.navigations + 1,
                         db := s.db ++ [mkContact s campaign p "found"
                           (some "Profile not accessible or private") none],
                         nextId := s.nextId + 1,
                         failed_count := s.failed_count + 1 })
    -- pending already: `pending` row, existing
    ∨ (s.db.any (fun c => c.profile_url == p.profile_url) = false ∧
        env.navThrows = false ∧ env.containerFound = true ∧
        env.connectFound = false ∧ env.pendingFound = true ∧
        processCandidate settings campaign s p env =
          .next { s with navigations := s.navigations + 1,
                         db := s.db ++ [mkContact s campaign p "pending"
                           (some "Already sent (found Pending button)") none],
                         nextId := s.nextId + 1,
                         existing_count := s.existing_count + 1 })
    -- no connect control at all: `found` row, failed
    ∨ (s.db.any (fun c => c.profile_url == p.profile_url) = false ∧
        env.navThrows = false ∧ env.containerFound = true ∧
        env.connectFound = false ∧ env.pendingFound = false ∧
        processCandidate settings campaign s p env =
          .next { s with navigations := s.navigations + 1,
                         db := s.db ++ [mkContact s campaign p "found"
                           (some "No connect button available - likely already connected") none],
                         nextId := s.nextId + 1,
                         failed_count := s.failed_count + 1 })
    -- email-required modal: `found` row, failed
    ∨ (s.db.any (fun c => c.profile_url == p.profile_url) = false ∧
        env.navThrows = false ∧ env.containerFound = true ∧
        env.connectFound = true ∧ env.emailRequired = true ∧
        processCandidate settings campaign s p env =
          .next { s with navigations := s.navigations + 1,
                         db := s.db ++ [mkContact s campaign p "found"
                           (some "Email required for connection") none],
                         nextId := s.nextId + 1,
                         failed_count := s.failed_count + 1 })
    -- send control missing: `found` row, failed
    ∨ (s.db.any (fun c => c.profile_url == p.profile_url) = false ∧
        env.navThrows = false ∧ env.containerFound = true ∧
        env.connectFound = true ∧ env.emailRequired = false ∧
        env.sendFound = false ∧
        processCandidate settings campaign s p env =
          .next { s with navigations := s.navigations + 1,
                         db := s.db ++ [mkContact s campaign p "found"
                           (some "Send button not found after clicking Connect") none],
                         nextId := s.nextId + 1,
                         failed_count := s.failed_count + 1 })
    -- confirmed limit modal after the send click: hard stop, nothing recorded
    ∨ (s.db.any (fun c => c.profile_url == p.profile_url) = false ∧
        env.navThrows = false ∧ env.containerFound = true ∧
        env.connectFound = true ∧ env.emailRequired = false ∧
        env.sendFound = true ∧ envTrueLimit env = true ∧
        processCandidate settings campaign s p env =
          .halt .limitReached { s with navigations := s.navigations + 1,
                                       limit_checks := s.limit_checks + 1 })
    -- success: `sent` row with timestamp, then the daily-limit check
    ∨ (s.db.any (fun c => c.profile_url == p.profile_url) = false ∧
        env.navThrows = false ∧ env.containerFound = true ∧
        env.connectFound = true ∧ env.emailRequired = false ∧
        env.sendFound = true ∧ envTrueLimit env = false ∧
        ((s.sent_count + 1 ≥ settings.daily_connection_limit ∧
          processCandidate settings campaign s p env =
            .halt .dailyLimit { s with navigations := s.navigations + 1,
                                       limit_checks := s.limit_checks + 1,
                                       db := s.db ++ [mkContact s campaign p "sent" none (some s.clock)],
                                       nextId := s.nextId + 1,
                                       clock := s.clock + 1,
                                       sent_count := s.sent_count + 1 })
         ∨ (¬ (s.sent_count + 1 ≥ settings.daily_connection_limit) ∧
          processCandidate settings campaign s p env =
            .next { s with navigations := s.navigations + 1,
                           limit_checks := s.limit_checks + 1,
                           db := s.db ++ [mkContact s campaign p "sent" none (some s.clock)],
                           nextId := s.nextId + 1,
                           clock := s.clock + 1,
                           sent_count := s.sent_count + 1 }))) :=
  processCandidate_cases settings campaign s p env

/-- C2: the candidate loop exits early only through the confirmed-limit hard
stop (which halts before recording the triggering candidate) or the
daily-limit soft stop (which halts after recording the triggering success
once the run's sent count reaches the daily connection limit); and on the
concrete batch whose first candidate triggers the confirmed limit modal, the
run returns `sent = 0`, leaves the Contact table as it was, and signals
`limitReached`. -/
theorem claim_C2_early_exit_cases :
    ((send_connection_requests {} { id := 1 } [] 0 0
        [(profileA, env_limit)]).summary.sent = 0
      ∧ (send_connection_requests {} { id := 1 } [] 0 0
        [(profileA, env_limit)]).state.db = []
      ∧ (send_connection_requests {} { id := 1 } [] 0 0
        [(profileA, env_limit)]).halted = some HaltReason.limitReached)
    ∧ (∀ (settings : AutomationSettings) (campaign : Campaign) (s s' : EngineState)
        (l rest : List (LinkedInProfile × CandidateEnv)) (hr : Option HaltReason),
        runLoop settings campaign s l = (s', hr, rest) →
        (hr = none → rest = [])
        ∧ (∀ r, hr = some r →
            ∃ pre p env s1, l = pre ++ (p, env) :: rest
              ∧ runLoop settings campaign s pre = (s1, none, [])
              ∧ ((r = HaltReason.limitReached ∧ s' = stateAfterLimitHalt s1)
                 ∨ (r = HaltReason.dailyLimit
                    ∧ s1.sent_count + 1 ≥ settings.daily_connection_limit
                    ∧ s' = stateAfterSent campaign p s1)))) := by
  constructor
  · exact ⟨rfl, rfl, rfl⟩
  · intro settings campaign s s' l rest hr h
    constructor
    · intro hn
      subst hn
      exact runLoop_no_halt_no_leftover h
    · intro r hrr
      subst hrr
      obtain ⟨pre, p, env, s1, hdec, hpre, hstep⟩ := runLoop_halt_decomp h
      exact ⟨pre, p, env, s1, hdec, hpre, processCandidate_halt hstep⟩

/-- Witness for C2: the general characterization applied to a concrete
one-candidate batch that completes without a halt. -/
theorem claim_C2_witness :
    (runLoop ({} : AutomationSettings) ({ id := 1 } : Campaign) ({} : EngineState)
      [(profileA, env_ok)]).2.2 = [] := by
  have h := claim_C2_early_exit_cases.2 {} { id := 1 } {}
    (runLoop {} { id := 1 } {} [(profileA, env_ok)]).1
    [(profileA, env_ok)]
    (runLoop {} { id := 1 } {} [(profileA, env_ok)]).2.2
    (runLoop {} { id := 1 } {} [(profileA, env_ok)]).2.1 rfl
  exact h.1 rfl

/-- C3: a candidate whose canonical profile address already has a Contact row
only increments `existing` — the resulting state is the previous one with
`existing_count + 1`, so no navigation, no row creation and no other step
happened; globally, address uniqueness of the Contact table is preserved by
any engine invocation and gives at most one row per (campaign, address) pair;
and the literal 3-profile scenario returns
`{sent := 2, failed := 0, existing := 1, total_processed := 3}`. -/
theorem claim_C3_dedup :
    (∀ (settings : AutomationSettings) (campaign : Campaign) (s : EngineState)
        (p : LinkedInProfile) (env : CandidateEnv),
        s.db.any (fun c => c.profile_url == p.profile_url) = true →
        processCandidate settings campaign s p env =
          .next { s with existing_count := s.existing_count + 1 })
    ∧ (∀ (settings : AutomationSettings) (campaign : Campaign) (db : List Contact)
        (nextId clock : Nat) (candidates : List (LinkedInProfile × CandidateEnv)),
        (db.map (fun c => c.profile_url)).Nodup →
        (((send_connection_requests settings campaign db nextId clock
              candidates).state.db.map (fun c => c.profile_url)).Nodup
          ∧ ∀ (cid : Nat) (u : String),
              ((send_connection_requests settings campaign db nextId clock
                  candidates).state.db.filter
                (fun c => c.campaign_id == cid && c.profile_url == u)).length ≤ 1))
    ∧ (send_connection_requests {} { id := 1 } [row_for_profileB] 8 100
        [(profileA, env_ok), (profileB, env_ok), (profileC, env_ok)]).summary =
      { sent := 2, failed := 0, existing := 1, total_processed := 3 } := by
  refine ⟨?_, ?_, rfl⟩
  · intro settings campaign s p env h1
    rcases processCandidate_cases settings campaign s p env with
      ⟨_, he⟩ | ⟨hg, _, _⟩ | ⟨hg, _, _, _⟩ | ⟨hg, _, _, _, _, _⟩ | ⟨hg, _, _, _, _, _⟩ |
      ⟨hg, _, _, _, _, _⟩ | ⟨hg, _, _, _, _, _, _⟩ | ⟨hg, _, _, _, _, _, _, _⟩ |
      ⟨hg, _, _, _, _, _, _, _⟩
    · exact he
    all_goals (rw [h1] at hg; exact Bool.noConfusion hg)
  · intro settings campaign db nextId clock candidates hnd
    constructor
    · exact runLoop_preserves_nodup hnd
    · intro cid u
      exact pair_count_le_one (runLoop_preserves_nodup hnd)

/-- Witness for C3: the pair bound applied to the concrete 3-profile run over
a table already holding a row for profile #2. -/
theorem claim_C3_witness :
    ((send_connection_requests {} { id := 1 } [row_for_profileB] 8 100
        [(profileA, env_ok), (profileB, env_ok), (profileC, env_ok)]).state.db.filter
      (fun c => c.campaign_id == 1 &&
        c.profile_url == "https://www.linkedin.com/in/u2/")).length ≤ 1 :=
  (claim_C3_dedup.2.1 {} { id := 1 } [row_for_profileB] 8 100
    [(profileA, env_ok), (profileB, env_ok), (profileC, env_ok)] (by decide)).2 1
    "https://www.linkedin.com/in/u2/"

/-- C4 counterexample: on a candidate that is fully processed and successfully
sent, the engine inspects the page for the limit-modal signature exactly once
(after the send click), not twice — after the connect click it checks only
for the email-required modal. -/
theorem claim_C4_counterexample :
    (send_connection_requests {} { id := 1 } [] 0 0
      [(profileA, env_ok)]).state.limit_checks = 1
    ∧ (send_connection_requests {} { id := 1 } [] 0 0
      [(profileA, env_ok)]).summary.sent = 1 :=
  ⟨rfl, rfl⟩

/-- C4 (amended): per candidate, rate-limit detection is performed exactly
once, immediately after the send click, whenever the candidate's processing
reaches the send click, and not at all otherwise. -/
theorem claim_C4_limit_checks (settings : AutomationSettings) (campaign : Campaign)
    (s : EngineState) (p : LinkedInProfile) (env : CandidateEnv) :
    ((processCandidate settings campaign s p env).state).limit_checks =
      s.limit_checks + (if reachesSendClick s p env then 1 else 0) := by
  rcases processCandidate_cases settings campaign s p env with
    ⟨h1, he⟩ | ⟨h1, h2, he⟩ | ⟨h1, h2, h3, he⟩ | ⟨h1, h2, h3, h4, h5, he⟩ |
    ⟨h1, h2, h3, h4, h5, he⟩ | ⟨h1, h2, h3, h4, h5, he⟩ |
    ⟨h1, h2, h3, h4, h5, h6, he⟩ | ⟨h1, h2, h3, h4, h5, h6, h7, he⟩ |
    ⟨h1, h2, h3, h4, h5, h6, h7, hrest⟩
  · rw [he]; simp [StepResult.state, reachesSendClick, h1]
  · rw [he]; simp [StepResult.state, reachesSendClick, h2]
  · rw [he]; simp [StepResult.state, reachesSendClick, h1, h2, h3]
  · rw [he]; simp [StepResult.state, reachesSendClick, h1, h2, h3, h4]
  · rw [he]; simp [StepResult.state, reachesSendClick, h1, h2, h3, h4]
  · rw [he]; simp [StepResult.state, reachesSendClick, h1, h2, h3, h4, h5]
  · rw [he]; simp [StepResult.state, reachesSendClick, h1, h2, h3, h4, h5, h6]
  · rw [he]; simp [StepResult.state, reachesSendClick, h1, h2, h3, h4, h5, h6]
  · rcases hrest with ⟨h8, he⟩ | ⟨h8, he⟩ <;>
      (rw [he]; simp [StepResult.state, reachesSendClick, h1, h2, h3, h4, h5, h6])


/-! ### The connection-status checker (`automation/checker.py`, claim C6)

The smart strategy walks the remote connections listing.  Its browser I/O is
embedded as data: `loads` is the sequence of `query_selector_all` snapshots
(one per `while` round, each listing the raw `href` of every connection
element currently rendered; an empty string stands for a missing `href`,
which the code skips).  The direct strategy's "connected" UI test is embedded
as membership of the contact's profile address in the fixed set of remotely
connected addresses — running with the same snapshots/set is the claim's "no
intervening remote state change".  `_update_accepted_connection` writes
`status = "accepted"` and the acceptance timestamp through
`update_contact(contact.id, ...)`; its best-effort contact-info scrape is
I/O-only and omitted. -/

/-- The smart checker's result counters. -/
structure CheckStats where
  checked : Nat := 0
  newly_accepted : Nat := 0
  updated : Nat := 0
deriving DecidableEq

/-- The direct checker's result counters. -/
structure DirectCheckStats where
  checked : Nat := 0
  newly_accepted : Nat := 0
  failed : Nat := 0
deriving DecidableEq

/-- `db_manager.get_contacts_by_status`. -/
def get_contacts_by_status (db : List Contact) (cid : Nat) (status : String) :
    List Contact :=
  db.filter (fun c => c.campaign_id == cid && c.status == status)

/-- `db_manager.get_contact` (primary-key lookup). -/
def get_contact (db : List Contact) (contact_id : Nat) : Option Contact :=
  db.find? (fun c => c.id == contact_id)

/-- The row update `{"status": "accepted", "connection_accepted_at": now}`
applied to one contact when its primary key matches. -/
def acceptUpd (clock : Nat) (cid : Nat) (c : Contact) : Contact :=
  if c.id == cid then
    { c with status := "accepted", connection_accepted_at := some clock }
  else c

/-- `update_contact(contact_id, {"status": "accepted",
"connection_accepted_at": now})`. -/
def markAccepted (clock : Nat) (contact_id : Nat) (db : List Contact) : List Contact :=
  db.map (acceptUpd clock contact_id)

/-- Strictly-later comparison of acceptance timestamps (`ORDER BY
connection_accepted_at DESC`; a missing timestamp sorts last). -/
def optLater : Option Nat → Option Nat → Bool
  | some x, some y => x > y
  | some _, none => true
  | none, _ => false

/-- `checker._get_connection_limit`: the campaign's accepted contact with the
greatest acceptance timestamp (the first such on ties). -/
def get_connection_limit (db : List Contact) (cid : Nat) : Option Contact :=
  (db.filter (fun c => c.campaign_id == cid && c.status == "accepted")).foldl
    (fun best c =>
      match best with
      | none => some c
      | some b =>
        if optLater c.connection_accepted_at b.connection_accepted_at then some c
        else best)
    none

/-- The state threaded through `_check_connections_page`. -/
structure SmartState where
  stats : CheckStats := {}
  db : List Contact := []
  clock : Nat := 0
deriving DecidableEq

/-- The Python dict comprehension `{c.profile_url: c for c in pending}` keeps
the last binding per address. -/
def lookupFind (pending : List Contact) (u : String) : Option Contact :=
  pending.reverse.find? (fun c => c.profile_url == u)

/-- One `for connection in connections` pass: skip missing hrefs, clean the
address, match it against the pending lookup (accept + count on a hit), then
test the stopping anchor; `true` means `finish_process` was set. -/
def checkRound (pending : List Contact) (limit_url : Option String) :
    List String → SmartState → SmartState × Bool
  | [], st => (st, false)
  | e :: rest, st =>
    if e = "" then checkRound pending limit_url rest st
    else
      let u := clean_profile_url e
      let st :=
        match lookupFind pending u with
        | some c =>
          { stats := { checked := st.stats.checked + 1,
                       newly_accepted := st.stats.newly_accepted + 1,
                       updated := st.stats.updated + 1 },
            db := markAccepted st.clock c.id st.db,
            clock := st.clock + 1 }
        | none => st
      if limit_url = some u then (st, true)
      else checkRound pending limit_url rest st

/-- `checker._check_connections_page`: one round per scroll burst; stop when
no element rendered, when the anchor was reached, or when fewer than 10
elements rendered. -/
def checkPages (pending : List Contact) (limit_url : Option String) :
    List (List String) → SmartState → SmartState
  | [], st => st
  | conns :: more, st =>
    if conns = [] then st
    else
      let r := checkRound pending limit_url conns st
      if r.2 then r.1
      else if conns.length < 10 then r.1
      else checkPages pending limit_url more r.1

/-- `checker.smart_connection_checker`: build the pending lookup from the
campaign's `sent` contacts (returning zeroed stats when there are none),
anchor on the most recently accepted contact, and walk the listing. -/
def smart_connection_checker (db : List Contact) (clock : Nat) (cid : Nat)
    (loads : List (List String)) : SmartState :=
  let pending := get_contacts_by_status db cid "sent"
  if pending = [] then { stats := {}, db := db, clock := clock }
  else
    let limit_url := (get_connection_limit db cid).map (fun c => c.profile_url)
    checkPages pending limit_url loads { stats := {}, db := db, clock := clock }

/-- The loop of `checker.check_specific_contacts`: skip missing contacts and
contacts whose status is not `sent`; otherwise count the check and, when the
profile shows a connected signature, mark accepted. -/
def checkSpecificGo (connectedUrls : List String) :
    List Nat → DirectCheckStats → List Contact → Nat →
    DirectCheckStats × List Contact × Nat
  | [], stats, db, clock => (stats, db, clock)
  | i :: rest, stats, db, clock =>
    match get_contact db i with
    | none => checkSpecificGo connectedUrls rest stats db clock
    | some c =>
      if c.status ≠ "sent" then checkSpecificGo connectedUrls rest stats db clock
      else
        let stats := { stats with checked := stats.checked + 1 }
        if connectedUrls.contains c.profile_url then
          checkSpecificGo connectedUrls rest
            { stats with newly_accepted := stats.newly_accepted + 1 }
            (markAccepted clock c.id db) (clock + 1)
        else
          checkSpecificGo connectedUrls rest stats db clock

/-- `checker.check_specific_contacts`. -/
def check_specific_contacts (connectedUrls : List String) (db : List Contact)
    (clock : Nat) (contact_ids : List Nat) :
    DirectCheckStats × List Contact × Nat :=
  checkSpecificGo connectedUrls contact_ids {} db clock

/-! #### Idempotence of the direct strategy -/

theorem find?_congr_fun {α : Type} {p q : α → Bool} (h : ∀ a, p a = q a) :
    ∀ l : List α, l.find? p = l.find? q
  | [] => rfl
  | a :: t => by
    rw [List.find?_cons, List.find?_cons, h a, find?_congr_fun h t]

theorem markAccepted_eq_map (clock cid : Nat) (db : List Contact) :
    markAccepted clock cid db = db.map (acceptUpd clock cid) := rfl

theorem acceptUpd_id (clock cid : Nat) (c : Contact) :
    (acceptUpd clock cid c).id = c.id := by
  unfold acceptUpd
  split <;> rfl

theorem acceptUpd_url (clock cid : Nat) (c : Contact) :
    (acceptUpd clock cid c).profile_url = c.profile_url := by
  unfold acceptUpd
  split <;> rfl

theorem acceptUpd_campaign (clock cid : Nat) (c : Contact) :
    (acceptUpd clock cid c).campaign_id = c.campaign_id := by
  unfold acceptUpd
  split <;> rfl

theorem get_contact_markAccepted (clock cid i : Nat) (db : List Contact) :
    get_contact (markAccepted clock cid db) i =
      (get_contact db i).map (acceptUpd clock cid) := by
  unfold get_contact
  rw [markAccepted_eq_map, List.find?_map]
  congr 1
  exact find?_congr_fun (fun c => by
    show ((acceptUpd clock cid c).id == i) = (c.id == i)
    rw [acceptUpd_id]) db

/-- No contact reachable under id `i` is both still `sent` and remotely
connected. -/
def noPendingConnected (connectedUrls : List String) (db : List Contact) (i : Nat) :
    Prop :=
  ∀ c, get_contact db i = some c → c.status = "sent" →
    connectedUrls.contains c.profile_url = false

theorem markAccepted_noPendingConnected {connectedUrls : List String}
    {db : List Contact} {i : Nat} (h : noPendingConnected connectedUrls db i)
    (clock cid : Nat) :
    noPendingConnected connectedUrls (markAccepted clock cid db) i := by
  intro c hc hs
  rw [get_contact_markAccepted] at hc
  cases hget : get_contact db i with
  | none => rw [hget] at hc; exact Option.noConfusion hc
  | some c0 =>
    rw [hget] at hc
    have hc' : acceptUpd clock cid c0 = c := by
      simpa using hc
    unfold acceptUpd at hc'
    by_cases hid : (c0.id == cid) = true
    · rw [if_pos hid] at hc'
      rw [← hc'] at hs
      exact absurd hs (by simp)
    · rw [if_neg hid] at hc'
      subst hc'
      exact h c0 hget hs

theorem checkSpecificGo_preserves {connectedUrls : List String} {i : Nat} :
    ∀ (ids : List Nat) (stats : DirectCheckStats) (db : List Contact) (clock : Nat),
      noPendingConnected connectedUrls db i →
      noPendingConnected connectedUrls
        (checkSpecificGo connectedUrls ids stats db clock).2.1 i
  | [], stats, db, clock, h => h
  | j :: rest, stats, db, clock, h => by
    cases hg : get_contact db j with
    | none =>
      simp only [checkSpecificGo, hg]
      exact checkSpecificGo_preserves rest _ db clock h
    | some c =>
      simp only [checkSpecificGo, hg]
      by_cases hs : c.status ≠ "sent"
      · rw [if_pos hs]
        exact checkSpecificGo_preserves rest _ db clock h
      · rw [if_neg hs]
        by_cases hc : connectedUrls.contains c.profile_url
        · rw [if_pos hc]
          exact checkSpecificGo_preserves rest _ _ (clock + 1)
            (markAccepted_noPendingConnected h clock c.id)
        · rw [if_neg hc]
          exact checkSpecificGo_preserves rest _ db clock h

theorem checkSpecificGo_establishes {connectedUrls : List String} :
    ∀ (ids : List Nat) (stats : DirectCheckStats) (db : List Contact) (clock : Nat),
      ∀ i ∈ ids, noPendingConnected connectedUrls
        (checkSpecificGo connectedUrls ids stats db clock).2.1 i
  | [], _, _, _, i, hi => absurd hi (List.not_mem_nil i)
  | j :: rest, stats, db, clock, i, hi => by
    rcases List.mem_cons.mp hi with he | hm
    · subst he
      cases hg : get_contact db i with
      | none =>
        simp only [checkSpecificGo, hg]
        refine checkSpecificGo_preserves rest _ db clock ?_
        intro c hc _
        rw [hg] at hc
        exact Option.noConfusion hc
      | some c =>
        simp only [checkSpecificGo, hg]
        by_cases hs : c.status ≠ "sent"
        · rw [if_pos hs]
          refine checkSpecificGo_preserves rest _ db clock ?_
          intro c' hc' hs'
          rw [hg] at hc'
          have hcc : c = c' := by simpa using hc'
          exact absurd (hcc ▸ hs') hs
        · rw [if_neg hs]
          by_cases hc : connectedUrls.contains c.profile_url
          · rw [if_pos hc]
            refine checkSpecificGo_preserves rest _ _ (clock + 1) ?_
            intro c' hc' hs'
            rw [get_contact_markAccepted, hg] at hc'
            have hcc : acceptUpd clock c.id c = c' := by simpa using hc'
            have : c'.status = "accepted" := by
              rw [← hcc]
              unfold acceptUpd
              rw [if_pos (by simp)]
            rw [this] at hs'
            exact absurd hs' (by simp)
          · rw [if_neg hc]
            refine checkSpecificGo_preserves rest _ db clock ?_
            intro c' hc' _
            rw [hg] at hc'
            have hcc : c = c' := by simpa using hc'
            rw [← hcc]
            simpa using hc
    · cases hg : get_contact db j with
      | none =>
        simp only [checkSpecificGo, hg]
        exact checkSpecificGo_establishes rest _ db clock i hm
      | some c =>
        simp only [checkSpecificGo, hg]
        by_cases hs : c.status ≠ "sent"
        · rw [if_pos hs]
          exact checkSpecificGo_establishes rest _ db clock i hm
        · rw [if_neg hs]
          by_cases hc : connectedUrls.contains c.profile_url
          · rw [if_pos hc]
            exact checkSpecificGo_establishes rest _ _ (clock + 1) i hm
          · rw [if_neg hc]
            exact checkSpecificGo_establishes rest _ db clock i hm

theorem checkSpecificGo_no_new {connectedUrls : List String} :
    ∀ (ids : List Nat) (stats : DirectCheckStats) (db : List Contact) (clock : Nat),
      (∀ i ∈ ids, noPendingConnected connectedUrls db i) →
      (checkSpecificGo connectedUrls ids stats db clock).1.newly_accepted =
        stats.newly_accepted
  | [], stats, db, clock, _ => rfl
  | j :: rest, stats, db, clock, h => by
    cases hg : get_contact db j with
    | none =>
      simp only [checkSpecificGo, hg]
      exact checkSpecificGo_no_new rest _ db clock
        (fun i hi => h i (List.mem_cons_of_mem j hi))
    | some c =>
      simp only [checkSpecificGo, hg]
      by_cases hs : c.status ≠ "sent"
      · rw [if_pos hs]
        exact checkSpecificGo_no_new rest _ db clock
          (fun i hi => h i (List.mem_cons_of_mem j hi))
      · rw [if_neg hs]
        have hsent : c.status = "sent" := by
          by_contra hn
          exact hs hn
        have hconn : connectedUrls.contains c.profile_url = false :=
          h j (List.mem_cons_self j rest) c hg hsent
        rw [if_neg (fun hx => by rw [hconn] at hx; exact Bool.noConfusion hx)]
        exact checkSpecificGo_no_new rest _ db clock
          (fun i hi => h i (List.mem_cons_of_mem j hi))

/-! #### Flattening the smart walk

The control flow of `_check_connections_page` (which entries are processed,
and where the walk stops) depends only on the snapshots and the anchor
address, never on the database state.  The walk is therefore flattened into
the sequence of cleaned addresses it processes, and the whole procedure
becomes a fold of the match/update step over that sequence. -/

/-- The single match/update step of the smart checker's entry loop. -/
def matchStep (pending : List Contact) (st : SmartState) (u : String) : SmartState :=
  match lookupFind pending u with
  | some c =>
    { stats := { checked := st.stats.checked + 1,
                 newly_accepted := st.stats.newly_accepted + 1,
                 updated := st.stats.updated + 1 },
      db := markAccepted st.clock c.id st.db,
      clock := st.clock + 1 }
  | none => st

/-- The cleaned addresses one round processes, and whether it set
`finish_process`. -/
def roundEntries (limit_url : Option String) : List String → List String × Bool
  | [] => ([], false)
  | e :: rest =>
    if e = "" then roundEntries limit_url rest
    else
      let u := clean_profile_url e
      if limit_url = some u then ([u], true)
      else
        let r := roundEntries limit_url rest
        (u :: r.1, r.2)

/-- The cleaned addresses the whole walk processes. -/
def walkEntries (limit_url : Option String) : List (List String) → List String
  | [] => []
  | conns :: more =>
    if conns = [] then []
    else
      let r := roundEntries limit_url conns
      if r.2 then r.1
      else if conns.length < 10 then r.1
      else r.1 ++ walkEntries limit_url more

theorem checkRound_eq_fold (pending : List Contact) (limit_url : Option String) :
    ∀ (conns : List String) (st : SmartState),
      checkRound pending limit_url conns st =
        ((roundEntries limit_url conns).1.foldl (matchStep pending) st,
         (roundEntries limit_url conns).2)
  | [], st => rfl
  | e :: rest, st => by
    simp only [checkRound, roundEntries]
    by_cases he : e = ""
    · rw [if_pos he, if_pos he]
      exact checkRound_eq_fold pending limit_url rest st
    · rw [if_neg he, if_neg he]
      by_cases hl : limit_url = some (clean_profile_url e)
      · rw [if_pos hl, if_pos hl]
        rfl
      · rw [if_neg hl, if_neg hl]
        exact checkRound_eq_fold pending limit_url rest _

theorem checkPages_eq_fold (pending : List Contact) (limit_url : Option String) :
    ∀ (loads : List (List String)) (st : SmartState),
      checkPages pending limit_url loads st =
        (walkEntries limit_url loads).foldl (matchStep pending) st
  | [], st => rfl
  | conns :: more, st => by
    simp only [checkPages, walkEntries]
    by_cases hc : conns = []
    · rw [if_pos hc, if_pos hc]
      rfl
    · rw [if_neg hc, if_neg hc, checkRound_eq_fold]
      by_cases hf : (roundEntries limit_url conns).2
      · rw [if_pos hf, if_pos hf]
      · rw [if_neg hf, if_neg hf]
        by_cases hlen : conns.length < 10
        · rw [if_pos hlen, if_pos hlen]
        · rw [if_neg hlen, if_neg hlen, List.foldl_append]
          exact checkPages_eq_fold pending limit_url more _

/-- Prefix of a list up to and including the first occurrence of `x` (the
whole list when `x` does not occur). -/
def takeThrough (x : String) : List String → List String
  | [] => []
  | e :: rest => if e = x then [e] else e :: takeThrough x rest

theorem takeThrough_append_of_mem {x : String} :
    ∀ {a : List String}, x ∈ a → ∀ (b : List String),
      takeThrough x (a ++ b) = takeThrough x a
  | [], hx, _ => absurd hx (List.not_mem_nil x)
  | e :: rest, hx, b => by
    have hL : takeThrough x ((e :: rest) ++ b) =
        if e = x then [e] else e :: takeThrough x (rest ++ b) := rfl
    have hR : takeThrough x (e :: rest) =
        if e = x then [e] else e :: takeThrough x rest := rfl
    rw [hL, hR]
    by_cases he : e = x
    · rw [if_pos he, if_pos he]
    · rw [if_neg he, if_neg he]
      have hx' : x ∈ rest := by
        rcases List.mem_cons.mp hx with h | h
        · exact absurd h.symm he
        · exact h
      rw [takeThrough_append_of_mem hx' b]

theorem takeThrough_of_not_mem {x : String} :
    ∀ {a : List String}, x ∉ a → takeThrough x a = a
  | [], _ => rfl
  | e :: rest, hx => by
    simp only [takeThrough]
    have he : e ≠ x := fun h => hx (h ▸ List.mem_cons_self e rest)
    rw [if_neg he, takeThrough_of_not_mem (fun h => hx (List.mem_cons_of_mem e h))]

theorem takeThrough_append_of_not_mem {x : String} :
    ∀ {a : List String}, x ∉ a → ∀ (b : List String),
      takeThrough x (a ++ b) = a ++ takeThrough x b
  | [], _, b => rfl
  | e :: rest, hx, b => by
    have hL : takeThrough x ((e :: rest) ++ b) =
        if e = x then [e] else e :: takeThrough x (rest ++ b) := rfl
    rw [hL]
    have he : e ≠ x := fun h => hx (h ▸ List.mem_cons_self e rest)
    rw [if_neg he,
      takeThrough_append_of_not_mem (fun h => hx (List.mem_cons_of_mem e h)) b]
    rfl

theorem takeThrough_prefix_decomp (x : String) :
    ∀ (l : List String), ∃ t, l = takeThrough x l ++ t
  | [] => ⟨[], rfl⟩
  | e :: rest => by
    simp only [takeThrough]
    by_cases he : e = x
    · rw [if_pos he]
      exact ⟨rest, rfl⟩
    · rw [if_neg he]
      obtain ⟨t, ht⟩ := takeThrough_prefix_decomp x rest
      exact ⟨t, by rw [List.cons_append, ← ht]⟩

theorem mem_takeThrough_sub {x u : String} :
    ∀ {l : List String}, u ∈ takeThrough x l → u ∈ l := by
  intro l hu
  obtain ⟨t, ht⟩ := takeThrough_prefix_decomp x l
  rw [ht]
  exact List.mem_append.mpr (Or.inl hu)

theorem roundEntries_none_no_finish :
    ∀ (conns : List String), (roundEntries none conns).2 = false
  | [] => rfl
  | e :: rest => by
    simp only [roundEntries]
    by_cases he : e = ""
    · rw [if_pos he]
      exact roundEntries_none_no_finish rest
    · rw [if_neg he, if_neg (by simp)]
      exact roundEntries_none_no_finish rest

theorem roundEntries_cons (lu : Option String) (e : String) (rest : List String) :
    roundEntries lu (e :: rest) =
      (if e = "" then roundEntries lu rest
       else if lu = some (clean_profile_url e) then ([clean_profile_url e], true)
       else ((clean_profile_url e) :: (roundEntries lu rest).1,
             (roundEntries lu rest).2)) := rfl

theorem roundEntries_some_eq (x : String) :
    ∀ (conns : List String),
      (roundEntries (some x) conns).1 = takeThrough x (roundEntries none conns).1
      ∧ ((roundEntries (some x) conns).2 = true ↔ x ∈ (roundEntries none conns).1)
  | [] => ⟨rfl, by simp [roundEntries]⟩
  | e :: rest => by
    by_cases he : e = ""
    · rw [roundEntries_cons, roundEntries_cons, if_pos he, if_pos he]
      exact roundEntries_some_eq x rest
    · have hRn : roundEntries none (e :: rest) =
          (clean_profile_url e :: (roundEntries none rest).1,
           (roundEntries none rest).2) := by
        rw [roundEntries_cons, if_neg he, if_neg (fun h => Option.noConfusion h)]
      by_cases hl : x = clean_profile_url e
      · have hLs : roundEntries (some x) (e :: rest) = ([clean_profile_url e], true) := by
          rw [roundEntries_cons, if_neg he, if_pos (by rw [hl])]
        rw [hLs, hRn]
        constructor
        · show [clean_profile_url e] =
            takeThrough x (clean_profile_url e :: (roundEntries none rest).1)
          rw [takeThrough, if_pos hl.symm]
        · show (true = true) ↔ x ∈ clean_profile_url e :: (roundEntries none rest).1
          simp [hl]
      · have hLs : roundEntries (some x) (e :: rest) =
            (clean_profile_url e :: (roundEntries (some x) rest).1,
             (roundEntries (some x) rest).2) := by
          rw [roundEntries_cons, if_neg he, if_neg (fun h => hl (Option.some.inj h))]
        obtain ⟨ih1, ih2⟩ := roundEntries_some_eq x rest
        rw [hLs, hRn]
        constructor
        · show clean_profile_url e :: (roundEntries (some x) rest).1 =
            takeThrough x (clean_profile_url e :: (roundEntries none rest).1)
          rw [takeThrough, if_neg (fun h => hl h.symm), ih1]
        · show ((roundEntries (some x) rest).2 = true) ↔
            x ∈ clean_profile_url e :: (roundEntries none rest).1
          rw [ih2, List.mem_cons]
          constructor
          · exact Or.inr
          · intro h
            rcases h with h | h
            · exact absurd h hl
            · exact h

theorem walkEntries_some_eq (x : String) :
    ∀ (loads : List (List String)),
      walkEntries (some x) loads = takeThrough x (walkEntries none loads)
  | [] => rfl
  | conns :: more => by
    simp only [walkEntries]
    by_cases hc : conns = []
    · rw [if_pos hc, if_pos hc]
      rfl
    · rw [if_neg hc, if_neg hc]
      obtain ⟨h1, h2⟩ := roundEntries_some_eq x conns
      rw [roundEntries_none_no_finish conns]
      simp only [Bool.false_eq_true, if_false]
      by_cases hfin : (roundEntries (some x) conns).2 = true
      · rw [if_pos hfin]
        have hxmem : x ∈ (roundEntries none conns).1 := h2.mp hfin
        by_cases hlen : conns.length < 10
        · rw [if_pos hlen, h1]
        · rw [if_neg hlen, h1, takeThrough_append_of_mem hxmem]
      · rw [if_neg hfin]
        have hxnot : x ∉ (roundEntries none conns).1 := fun hm => hfin (h2.mpr hm)
        by_cases hlen : conns.length < 10
        · rw [if_pos hlen, if_pos hlen, h1, takeThrough_of_not_mem hxnot]
        · rw [if_neg hlen, if_neg hlen, h1, takeThrough_of_not_mem hxnot,
            takeThrough_append_of_not_mem hxnot, walkEntries_some_eq x more]

/-! #### The stopping anchor is a maximal acceptance timestamp -/

/-- Order key for optional acceptance timestamps (`none` sorts below every
timestamp). -/
def tsKey : Option Nat → Nat
  | none => 0
  | some t => t + 1

theorem optLater_false_iff (a b : Option Nat) :
    optLater a b = false ↔ tsKey a ≤ tsKey b := by
  cases a <;> cases b <;> simp [optLater, tsKey]

theorem optLater_true_iff (a b : Option Nat) :
    optLater a b = true ↔ tsKey b < tsKey a := by
  cases a <;> cases b <;> simp [optLater, tsKey]

/-- The accumulator step of `_get_connection_limit`. -/
def bestStep (best : Option Contact) (c : Contact) : Option Contact :=
  match best with
  | none => some c
  | some b =>
    if optLater c.connection_accepted_at b.connection_accepted_at then some c
    else best

theorem get_connection_limit_eq_fold (db : List Contact) (cid : Nat) :
    get_connection_limit db cid =
      (db.filter (fun c => c.campaign_id == cid && c.status == "accepted")).foldl
        bestStep none := rfl

theorem bestFold_some :
    ∀ (L : List Contact) (b0 : Contact),
      ∃ b, L.foldl bestStep (some b0) = some b ∧ (b = b0 ∨ b ∈ L)
        ∧ tsKey b0.connection_accepted_at ≤ tsKey b.connection_accepted_at
        ∧ ∀ x ∈ L, tsKey x.connection_accepted_at ≤ tsKey b.connection_accepted_at
  | [], b0 => ⟨b0, rfl, Or.inl rfl, le_refl _, by simp⟩
  | c :: L', b0 => by
    have hstep : bestStep (some b0) c =
        if optLater c.connection_accepted_at b0.connection_accepted_at then some c
        else some b0 := rfl
    by_cases hl : optLater c.connection_accepted_at b0.connection_accepted_at = true
    · obtain ⟨b, hb, hmem, hkey, hall⟩ := bestFold_some L' c
      refine ⟨b, ?_, ?_, ?_, ?_⟩
      · rw [List.foldl_cons, hstep, if_pos hl]
        exact hb
      · rcases hmem with he | hm
        · exact Or.inr (he ▸ List.mem_cons_self c L')
        · exact Or.inr (List.mem_cons_of_mem c hm)
      · have hck : tsKey b0.connection_accepted_at ≤ tsKey c.connection_accepted_at :=
          le_of_lt ((optLater_true_iff _ _).mp hl)
        exact le_trans hck hkey
      · intro x hx
        rcases List.mem_cons.mp hx with he | hm
        · exact he ▸ hkey
        · exact hall x hm
    · have hl' : optLater c.connection_accepted_at b0.connection_accepted_at = false := by
        cases h : optLater c.connection_accepted_at b0.connection_accepted_at
        · rfl
        · exact absurd h hl
      obtain ⟨b, hb, hmem, hkey, hall⟩ := bestFold_some L' b0
      refine ⟨b, ?_, ?_, hkey, ?_⟩
      · rw [List.foldl_cons, hstep, if_neg (by rw [hl']; exact Bool.false_ne_true)]
        exact hb
      · rcases hmem with he | hm
        · exact Or.inl he
        · exact Or.inr (List.mem_cons_of_mem c hm)
      · intro x hx
        rcases List.mem_cons.mp hx with he | hm
        · subst he
          exact le_trans ((optLater_false_iff _ _).mp hl') hkey
        · exact hall x hm

theorem get_connection_limit_max {db : List Contact} {cid : Nat} {x0 : Contact}
    (hx0 : x0 ∈ db) (h1 : x0.campaign_id = cid) (h2 : x0.status = "accepted") :
    ∃ b, get_connection_limit db cid = some b ∧ b ∈ db ∧ b.campaign_id = cid
      ∧ b.status = "accepted"
      ∧ tsKey x0.connection_accepted_at ≤ tsKey b.connection_accepted_at := by
  rw [get_connection_limit_eq_fold]
  have hx0f : x0 ∈ db.filter (fun c => c.campaign_id == cid && c.status == "accepted") :=
    List.mem_filter.mpr ⟨hx0, by simp [h1, h2]⟩
  obtain ⟨pre, post, hsplit⟩ := List.append_of_mem hx0f
  rw [hsplit, List.foldl_append]
  have hmemf : ∀ y, y ∈ pre ∨ y = x0 ∨ y ∈ post →
      y ∈ db ∧ y.campaign_id = cid ∧ y.status = "accepted" := by
    intro y hy
    have hyf : y ∈ db.filter (fun c => c.campaign_id == cid && c.status == "accepted") := by
      rw [hsplit]
      rcases hy with h | h | h
      · exact List.mem_append.mpr (Or.inl h)
      · exact List.mem_append.mpr (Or.inr (h ▸ List.mem_cons_self x0 post))
      · exact List.mem_append.mpr (Or.inr (List.mem_cons_of_mem x0 h))
    have := List.mem_filter.mp hyf
    refine ⟨this.1, ?_, ?_⟩
    · have hb := (Bool.and_eq_true _ _).mp this.2
      exact eq_of_beq hb.1
    · have hb := (Bool.and_eq_true _ _).mp this.2
      exact eq_of_beq hb.2
  cases hacc : pre.foldl bestStep none with
  | none =>
    rw [List.foldl_cons]
    have : bestStep none x0 = some x0 := rfl
    rw [this]
    obtain ⟨b, hb, hmem, hkey, hall⟩ := bestFold_some post x0
    refine ⟨b, hb, ?_, ?_, ?_, hkey⟩
    · rcases hmem with he | hm
      · exact (hmemf b (Or.inr (Or.inl he))).1
      · exact (hmemf b (Or.inr (Or.inr hm))).1
    · rcases hmem with he | hm
      · exact (hmemf b (Or.inr (Or.inl he))).2.1
      · exact (hmemf b (Or.inr (Or.inr hm))).2.1
    · rcases hmem with he | hm
      · exact (hmemf b (Or.inr (Or.inl he))).2.2
      · exact (hmemf b (Or.inr (Or.inr hm))).2.2
  | some a =>
    have hamem : a = a ∨ a ∈ pre := by
      -- the accumulator after `pre` came from `pre`
      obtain ⟨b', hb', hmem', _, _⟩ := bestFold_some pre a
      exact Or.inl rfl
    rw [List.foldl_cons]
    have hstep : bestStep (some a) x0 =
        if optLater x0.connection_accepted_at a.connection_accepted_at then some x0
        else some a := rfl
    -- in either branch the accumulator key is ≥ x0's key afterwards
    by_cases hl : optLater x0.connection_accepted_at a.connection_accepted_at = true
    · rw [hstep, if_pos hl]
      obtain ⟨b, hb, hmem, hkey, hall⟩ := bestFold_some post x0
      refine ⟨b, hb, ?_, ?_, ?_, hkey⟩
      · rcases hmem with he | hm
        · exact (hmemf b (Or.inr (Or.inl he))).1
        · exact (hmemf b (Or.inr (Or.inr hm))).1
      · rcases hmem with he | hm
        · exact (hmemf b (Or.inr (Or.inl he))).2.1
        · exact (hmemf b (Or.inr (Or.inr hm))).2.1
      · rcases hmem with he | hm
        · exact (hmemf b (Or.inr (Or.inl he))).2.2
        · exact (hmemf b (Or.inr (Or.inr hm))).2.2
    · have hl' : optLater x0.connection_accepted_at a.connection_accepted_at = false := by
        cases h : optLater x0.connection_accepted_at a.connection_accepted_at
        · rfl
        · exact absurd h hl
      rw [hstep, if_neg (by rw [hl']; exact Bool.false_ne_true)]
      obtain ⟨b, hb, hmem, hkey, hall⟩ := bestFold_some post a
      have hpre_mem : a ∈ pre := by
        -- a nonempty fold from `none` yields an element of the list
        clear hl hl' hstep
        revert hacc
        clear hmemf hsplit
        induction pre with
        | nil => intro hacc; exact Option.noConfusion hacc
        | cons y ys ih =>
          intro hacc
          rw [List.foldl_cons] at hacc
          have hy : bestStep none y = some y := rfl
          rw [hy] at hacc
          obtain ⟨b', hb', hmem', _, _⟩ := bestFold_some ys y
          rw [hacc] at hb'
          injection hb' with hb''
          rcases hmem' with he | hm
          · rw [hb'', he]
            exact List.mem_cons_self y ys
          · rw [hb'']
            exact List.mem_cons_of_mem y hm
      have hx0a : tsKey x0.connection_accepted_at ≤ tsKey a.connection_accepted_at :=
        (optLater_false_iff _ _).mp hl'
      refine ⟨b, hb, ?_, ?_, ?_, le_trans hx0a hkey⟩
      · rcases hmem with he | hm
        · exact (hmemf b (Or.inl (he ▸ hpre_mem))).1
        · exact (hmemf b (Or.inr (Or.inr hm))).1
      · rcases hmem with he | hm
        · exact (hmemf b (Or.inl (he ▸ hpre_mem))).2.1
        · exact (hmemf b (Or.inr (Or.inr hm))).2.1
      · rcases hmem with he | hm
        · exact (hmemf b (Or.inl (he ▸ hpre_mem))).2.2
        · exact (hmemf b (Or.inr (Or.inr hm))).2.2

/-! #### Properties of the match/update fold -/

theorem matchStep_none {pending : List Contact} {st : SmartState} {u : String}
    (h : lookupFind pending u = none) : matchStep pending st u = st := by
  unfold matchStep
  rw [h]

theorem matchStep_some {pending : List Contact} {st : SmartState} {u : String}
    {c : Contact} (h : lookupFind pending u = some c) :
    matchStep pending st u =
      { stats := { checked := st.stats.checked + 1,
                   newly_accepted := st.stats.newly_accepted + 1,
                   updated := st.stats.updated + 1 },
        db := markAccepted st.clock c.id st.db,
        clock := st.clock + 1 } := by
  unfold matchStep
  rw [h]

theorem foldl_matchStep_newly (pending : List Contact) :
    ∀ (W : List String) (st : SmartState),
      (W.foldl (matchStep pending) st).stats.newly_accepted =
        st.stats.newly_accepted + W.countP (fun u => (lookupFind pending u).isSome)
  | [], st => by simp
  | u :: W', st => by
    rw [List.foldl_cons, foldl_matchStep_newly pending W' (matchStep pending st u),
      List.countP_cons]
    cases hl : lookupFind pending u with
    | none =>
      rw [matchStep_none hl]
      simp [hl]
    | some c =>
      rw [matchStep_some hl]
      simp [hl]
      omega

theorem matchStep_clock_le (pending : List Contact) (st : SmartState) (u : String) :
    st.clock ≤ (matchStep pending st u).clock := by
  cases hl : lookupFind pending u with
  | none => rw [matchStep_none hl]
  | some c => rw [matchStep_some hl]; exact Nat.le_succ _

theorem foldl_matchStep_clock_le (pending : List Contact) :
    ∀ (W : List String) (st : SmartState),
      st.clock ≤ (W.foldl (matchStep pending) st).clock
  | [], st => le_refl _
  | u :: W', st => by
    rw [List.foldl_cons]
    exact le_trans (matchStep_clock_le pending st u)
      (foldl_matchStep_clock_le pending W' (matchStep pending st u))

theorem foldl_matchStep_id (pending : List Contact) :
    ∀ (W : List String) (st : SmartState),
      (∀ u ∈ W, lookupFind pending u = none) →
      W.foldl (matchStep pending) st = st
  | [], st, _ => rfl
  | u :: W', st, h => by
    rw [List.foldl_cons, matchStep_none (h u (List.mem_cons_self u W'))]
    exact foldl_matchStep_id pending W' st (fun v hv => h v (List.mem_cons_of_mem u hv))

theorem foldl_matchStep_sent_mem (pending : List Contact) :
    ∀ (W : List String) (st : SmartState) (c' : Contact),
      c' ∈ (W.foldl (matchStep pending) st).db → c'.status = "sent" → c' ∈ st.db
  | [], st, c', hm, _ => hm
  | u :: W', st, c', hm, hs => by
    rw [List.foldl_cons] at hm
    have hstep := foldl_matchStep_sent_mem pending W' (matchStep pending st u) c' hm hs
    cases hl : lookupFind pending u with
    | none =>
      rw [matchStep_none hl] at hstep
      exact hstep
    | some c =>
      rw [matchStep_some hl] at hstep
      have hmap : c' ∈ st.db.map (acceptUpd st.clock c.id) := hstep
      obtain ⟨x, hx, hxe⟩ := List.mem_map.mp hmap
      unfold acceptUpd at hxe
      by_cases hid : (x.id == c.id) = true
      · rw [if_pos hid] at hxe
        rw [← hxe] at hs
        exact absurd hs (by simp)
      · rw [if_neg hid] at hxe
        exact hxe ▸ hx

theorem foldl_matchStep_keeps_accepted (pending : List Contact) :
    ∀ (W : List String) (st : SmartState) (i t0 : Nat),
      (∀ x ∈ st.db, x.id = i → x.status = "accepted" ∧
        ∃ t, x.connection_accepted_at = some t ∧ t0 ≤ t) →
      t0 ≤ st.clock →
      ∀ x ∈ (W.foldl (matchStep pending) st).db, x.id = i →
        x.status = "accepted" ∧ ∃ t, x.connection_accepted_at = some t ∧ t0 ≤ t
  | [], st, i, t0, h, _, x, hx, hi => h x hx hi
  | u :: W', st, i, t0, h, hclock, x, hx, hi => by
    rw [List.foldl_cons] at hx
    cases hl : lookupFind pending u with
    | none =>
      rw [matchStep_none hl] at hx
      exact foldl_matchStep_keeps_accepted pending W' st i t0 h hclock x hx hi
    | some c =>
      rw [matchStep_some hl] at hx
      refine foldl_matchStep_keeps_accepted pending W'
        { stats := _, db := markAccepted st.clock c.id st.db, clock := st.clock + 1 }
        i t0 ?_ (le_trans hclock (Nat.le_succ _)) x hx hi
      intro y hy hyi
      obtain ⟨y0, hy0, hy0e⟩ := List.mem_map.mp (hy :
        y ∈ st.db.map (acceptUpd st.clock c.id))
      unfold acceptUpd at hy0e
      by_cases hid : (y0.id == c.id) = true
      · rw [if_pos hid] at hy0e
        rw [← hy0e]
        exact ⟨rfl, st.clock, rfl, hclock⟩
      · rw [if_neg hid] at hy0e
        exact hy0e ▸ h y0 hy0 (by rw [← hy0e] at hyi; exact hyi)

theorem foldl_matchStep_progress (pending : List Contact) :
    ∀ (W : List String) (st : SmartState) (u : String) (c : Contact),
      u ∈ W → lookupFind pending u = some c →
      ∀ x ∈ (W.foldl (matchStep pending) st).db, x.id = c.id →
        x.status = "accepted" ∧
        ∃ t, x.connection_accepted_at = some t ∧ st.clock ≤ t
  | [], _, _, _, hu, _, _, _, _ => absurd hu (List.not_mem_nil _)
  | u0 :: W', st, u, c, hu, hl, x, hx, hi => by
    rw [List.foldl_cons] at hx
    rcases List.mem_cons.mp hu with he | hm
    · subst he
      rw [matchStep_some hl] at hx
      refine foldl_matchStep_keeps_accepted pending W'
        { stats := _, db := markAccepted st.clock c.id st.db, clock := st.clock + 1 }
        c.id st.clock ?_ (Nat.le_succ _) x hx hi
      intro y hy hyi
      obtain ⟨y0, hy0, hy0e⟩ := List.mem_map.mp (hy :
        y ∈ st.db.map (acceptUpd st.clock c.id))
      unfold acceptUpd at hy0e
      by_cases hid : (y0.id == c.id) = true
      · rw [if_pos hid] at hy0e
        rw [← hy0e]
        exact ⟨rfl, st.clock, rfl, le_refl _⟩
      · rw [if_neg hid] at hy0e
        -- y = y0 has y.id = c.id but y0.id ≠ c.id: impossible
        rw [← hy0e] at hyi
        exact absurd (by simp [hyi]) hid
    · have hres := foldl_matchStep_progress pending W' (matchStep pending st u0) u c hm hl
        x hx hi
      obtain ⟨hacc, t, hts, hle⟩ := hres
      exact ⟨hacc, t, hts, le_trans (matchStep_clock_le pending st u0) hle⟩

theorem foldl_matchStep_trace (pending : List Contact) :
    ∀ (W : List String) (st : SmartState) (x' : Contact),
      x' ∈ (W.foldl (matchStep pending) st).db →
      ∃ x ∈ st.db, x'.id = x.id ∧ x'.profile_url = x.profile_url ∧
        x'.campaign_id = x.campaign_id ∧
        (x' = x ∨ (x'.status = "accepted"
          ∧ (∃ t, x'.connection_accepted_at = some t ∧ st.clock ≤ t)
          ∧ ∃ u ∈ W, ∃ c, lookupFind pending u = some c ∧ c.id = x.id))
  | [], st, x', hx' => ⟨x', hx', rfl, rfl, rfl, Or.inl rfl⟩
  | u0 :: W', st, x', hx' => by
    rw [List.foldl_cons] at hx'
    cases hl : lookupFind pending u0 with
    | none =>
      rw [matchStep_none hl] at hx'
      obtain ⟨x, hx, h1, h2, h3, h4⟩ := foldl_matchStep_trace pending W' st x' hx'
      refine ⟨x, hx, h1, h2, h3, ?_⟩
      rcases h4 with h | ⟨ha, ht, u, hu, c, hc, hcid⟩
      · exact Or.inl h
      · exact Or.inr ⟨ha, ht, u, List.mem_cons_of_mem u0 hu, c, hc, hcid⟩
    | some c0 =>
      rw [matchStep_some hl] at hx'
      obtain ⟨x1, hx1, h1, h2, h3, h4⟩ := foldl_matchStep_trace pending W' _ x' hx'
      obtain ⟨x, hx, hxe⟩ := List.mem_map.mp (hx1 :
        x1 ∈ st.db.map (acceptUpd st.clock c0.id))
      have hxid : x1.id = x.id := by rw [← hxe]; exact acceptUpd_id _ _ _
      have hxurl : x1.profile_url = x.profile_url := by
        rw [← hxe]; exact acceptUpd_url _ _ _
      have hxcamp : x1.campaign_id = x.campaign_id := by
        rw [← hxe]; exact acceptUpd_campaign _ _ _
      refine ⟨x, hx, h1.trans hxid, h2.trans hxurl, h3.trans hxcamp, ?_⟩
      have hclock1 : st.clock ≤ st.clock + 1 := Nat.le_succ _
      rcases h4 with h | ⟨ha, ⟨t, hts, hle⟩, u, hu, c, hc, hcid⟩
      · -- x' is the image x1; classify x1 against x
        subst h
        unfold acceptUpd at hxe
        by_cases hid : (x.id == c0.id) = true
        · rw [if_pos hid] at hxe
          refine Or.inr ⟨by rw [← hxe], ⟨st.clock, by rw [← hxe], le_refl _⟩,
            u0, List.mem_cons_self u0 W', c0, hl, ?_⟩
          exact (eq_of_beq hid).symm
        · rw [if_neg hid] at hxe
          exact Or.inl hxe.symm
      · exact Or.inr ⟨ha, ⟨t, hts, le_trans hclock1 hle⟩,
          u, List.mem_cons_of_mem u0 hu, c, hc, hcid.trans hxid⟩

theorem foldl_matchStep_image (pending : List Contact) :
    ∀ (W : List String) (st : SmartState) (x : Contact), x ∈ st.db →
      ∃ x' ∈ (W.foldl (matchStep pending) st).db,
        x'.id = x.id ∧ x'.campaign_id = x.campaign_id
  | [], st, x, hx => ⟨x, hx, rfl, rfl⟩
  | u0 :: W', st, x, hx => by
    rw [List.foldl_cons]
    cases hl : lookupFind pending u0 with
    | none =>
      rw [matchStep_none hl]
      exact foldl_matchStep_image pending W' st x hx
    | some c0 =>
      rw [matchStep_some hl]
      have hx1 : acceptUpd st.clock c0.id x ∈ markAccepted st.clock c0.id st.db :=
        List.mem_map_of_mem _ hx
      obtain ⟨x', hx', h1, h2⟩ := foldl_matchStep_image pending W'
        { stats := { checked := st.stats.checked + 1,
                     newly_accepted := st.stats.newly_accepted + 1,
                     updated := st.stats.updated + 1 },
          db := markAccepted st.clock c0.id st.db, clock := st.clock + 1 }
        (acceptUpd st.clock c0.id x) hx1
      exact ⟨x', hx', h1.trans (acceptUpd_id _ _ _), h2.trans (acceptUpd_campaign _ _ _)⟩

/-! #### Idempotence of the smart strategy -/

theorem mem_get_contacts_by_status {db : List Contact} {cid : Nat} {status : String}
    {c : Contact} :
    c ∈ get_contacts_by_status db cid status ↔
      c ∈ db ∧ c.campaign_id = cid ∧ c.status = status := by
  unfold get_contacts_by_status
  rw [List.mem_filter]
  constructor
  · rintro ⟨h1, h2⟩
    have hb := (Bool.and_eq_true _ _).mp h2
    exact ⟨h1, eq_of_beq hb.1, eq_of_beq hb.2⟩
  · rintro ⟨h1, h2, h3⟩
    refine ⟨h1, ?_⟩
    simp [h2, h3]

theorem lookupFind_some_facts {pending : List Contact} {u : String} {c : Contact}
    (h : lookupFind pending u = some c) : c ∈ pending ∧ c.profile_url = u := by
  unfold lookupFind at h
  have hp := List.find?_some h
  exact ⟨List.mem_reverse.mp (List.mem_of_find?_eq_some h), eq_of_beq hp⟩

theorem lookupFind_isSome_of_mem {pending : List Contact} {u : String} {c : Contact}
    (hc : c ∈ pending) (hurl : c.profile_url = u) :
    ∃ c', lookupFind pending u = some c' := by
  unfold lookupFind
  have h : (pending.reverse.find? (fun c => c.profile_url == u)).isSome :=
    List.find?_isSome.mpr ⟨c, List.mem_reverse.mpr hc, by simp [hurl]⟩
  exact Option.isSome_iff_exists.mp h

/-- A run of the smart checker over a database already produced by a previous
run with the same snapshots finds no new acceptance. -/
theorem smart_second_run_zero (db : List Contact) (clock : Nat) (cid : Nat)
    (loads : List (List String))
    (hids : (db.map (fun c => c.id)).Nodup)
    (hurls : (db.map (fun c => c.profile_url)).Nodup)
    (hts : ∀ c ∈ db, ∀ t, c.connection_accepted_at = some t → t < clock) :
    (smart_connection_checker (smart_connection_checker db clock cid loads).db
      (smart_connection_checker db clock cid loads).clock
      cid loads).stats.newly_accepted = 0 := by
  by_cases hp1 : get_contacts_by_status db cid "sent" = []
  · have h1 : smart_connection_checker db clock cid loads =
        { stats := {}, db := db, clock := clock } := by
      unfold smart_connection_checker
      rw [if_pos hp1]
    rw [h1]
    show (smart_connection_checker db clock cid loads).stats.newly_accepted = 0
    rw [h1]
  · have h1 : smart_connection_checker db clock cid loads =
        (walkEntries ((get_connection_limit db cid).map (fun c => c.profile_url))
            loads).foldl
          (matchStep (get_contacts_by_status db cid "sent"))
          { stats := {}, db := db, clock := clock } := by
      unfold smart_connection_checker
      rw [if_neg hp1, checkPages_eq_fold]
    rw [h1]
    -- abbreviations for the first run
    generalize hP1 : get_contacts_by_status db cid "sent" = pending1 at *
    generalize hL1 : (get_connection_limit db cid).map (fun c => c.profile_url) = l1 at *
    generalize hB1 : ({ stats := {}, db := db, clock := clock } : SmartState) = base1 at *
    generalize hW1 : walkEntries l1 loads = W1 at *
    have hbase_db : base1.db = db := by rw [← hB1]
    have hbase_clock : base1.clock = clock := by rw [← hB1]
    by_cases hp2 : get_contacts_by_status (W1.foldl (matchStep pending1) base1).db
        cid "sent" = []
    · unfold smart_connection_checker
      rw [if_pos hp2]
    · have h2 : smart_connection_checker (W1.foldl (matchStep pending1) base1).db
          (W1.foldl (matchStep pending1) base1).clock cid loads =
          (walkEntries ((get_connection_limit
              (W1.foldl (matchStep pending1) base1).db cid).map
                (fun c => c.profile_url)) loads).foldl
            (matchStep (get_contacts_by_status
              (W1.foldl (matchStep pending1) base1).db cid "sent"))
            { stats := {},
              db := (W1.foldl (matchStep pending1) base1).db,
              clock := (W1.foldl (matchStep pending1) base1).clock } := by
        unfold smart_connection_checker
        rw [if_neg hp2, checkPages_eq_fold]
      rw [h2, foldl_matchStep_newly]
      show 0 + _ = 0
      rw [Nat.zero_add, List.countP_eq_zero]
      intro u hu hsome
      obtain ⟨c2, hc2⟩ := Option.isSome_iff_exists.mp hsome
      obtain ⟨hc2mem, hc2url⟩ := lookupFind_some_facts hc2
      have hc2db1 := mem_get_contacts_by_status.mp hc2mem
      have hc2db0 : c2 ∈ db := by
        have := foldl_matchStep_sent_mem pending1 W1 base1 c2 hc2db1.1 hc2db1.2.2
        rw [hbase_db] at this
        exact this
      have hc2p1 : c2 ∈ pending1 := by
        rw [← hP1]
        exact mem_get_contacts_by_status.mpr ⟨hc2db0, hc2db1.2.1, hc2db1.2.2⟩
      obtain ⟨c1, hc1⟩ := lookupFind_isSome_of_mem hc2p1 hc2url
      obtain ⟨hc1mem, hc1url⟩ := lookupFind_some_facts hc1
      have hc1db0 : c1 ∈ db := by
        rw [← hP1] at hc1mem
        exact (mem_get_contacts_by_status.mp hc1mem).1
      have hc1c2 : c1 = c2 :=
        List.inj_on_of_nodup_map hurls hc1db0 hc2db0 (by rw [hc1url, hc2url])
      -- the entry `u` was already processed by the first run
      have huW1 : u ∈ W1 := by
        by_cases hm : W1.countP (fun v => (lookupFind pending1 v).isSome) = 0
        · -- first run matched nothing: its state is unchanged
          have hid1 : W1.foldl (matchStep pending1) base1 = base1 := by
            apply foldl_matchStep_id
            intro v hv
            have hz := List.countP_eq_zero.mp hm v hv
            cases hlv : lookupFind pending1 v with
            | none => rfl
            | some c => rw [hlv] at hz; simp at hz
          rw [hid1, hbase_db] at hu
          rw [hL1, hW1] at hu
          exact hu
        · -- some entry matched: the new anchor's address lies in the first walk
          obtain ⟨ustar, hustar, hstar⟩ :=
            List.countP_pos_iff.mp (Nat.pos_of_ne_zero hm)
          obtain ⟨cstar, hcstar⟩ := Option.isSome_iff_exists.mp hstar
          obtain ⟨hcsmem, hcsurl⟩ := lookupFind_some_facts hcstar
          have hcsdb0 : cstar ∈ db ∧ cstar.campaign_id = cid ∧ cstar.status = "sent" := by
            rw [← hP1] at hcsmem
            exact mem_get_contacts_by_status.mp hcsmem
          obtain ⟨x', hx'mem, hx'id, hx'camp⟩ := by
            have := foldl_matchStep_image pending1 W1 base1 cstar
              (by rw [hbase_db]; exact hcsdb0.1)
            exact this
          obtain ⟨hx'st, tstar, hx'ts, hx'le⟩ :=
            foldl_matchStep_progress pending1 W1 base1 ustar cstar hustar hcstar
              x' hx'mem hx'id
          rw [hbase_clock] at hx'le
          obtain ⟨b, hbeq, hbdb1, hbcamp, hbacc, hbkey⟩ :=
            get_connection_limit_max hx'mem (hx'camp.trans hcsdb0.2.1) hx'st
          have hbts : ∃ tb, b.connection_accepted_at = some tb ∧ clock ≤ tb := by
            rw [hx'ts] at hbkey
            cases hbt : b.connection_accepted_at with
            | none =>
              rw [hbt] at hbkey
              simp [tsKey] at hbkey
            | some tb =>
              rw [hbt] at hbkey
              simp [tsKey] at hbkey
              exact ⟨tb, rfl, by omega⟩
          obtain ⟨tb, hbt, hbtge⟩ := hbts
          obtain ⟨x0, hx0db, hbid, hburl, hbcampx, hbcases⟩ :=
            foldl_matchStep_trace pending1 W1 base1 b hbdb1
          rw [hbase_db] at hx0db
          rcases hbcases with hbeq0 | ⟨_, _, u', hu'W1, c', hc', hc'id⟩
          · -- the anchor row existed before the run: timestamp contradiction
            have hlt := hts x0 hx0db tb (by rw [← hbeq0]; exact hbt)
            omega
          · obtain ⟨hc'mem, hc'url⟩ := lookupFind_some_facts hc'
            have hc'db0 : c' ∈ db := by
              rw [← hP1] at hc'mem
              exact (mem_get_contacts_by_status.mp hc'mem).1
            have hcx0 : c' = x0 :=
              List.inj_on_of_nodup_map hids hc'db0 hx0db (by rw [hc'id])
            have hburl' : b.profile_url = u' := by
              rw [hburl, ← hcx0, hc'url]
            have hl2eq : (get_connection_limit
                (W1.foldl (matchStep pending1) base1).db cid).map
                  (fun c => c.profile_url) = some u' := by
              rw [hbeq]
              show some b.profile_url = some u'
              rw [hburl']
            rw [hl2eq, walkEntries_some_eq] at hu
            -- W1 is a prefix of the unanchored walk
            rw [← hW1] at hu'W1 ⊢
            cases l1 with
            | none =>
              exact mem_takeThrough_sub hu
            | some y =>
              rw [walkEntries_some_eq] at hu'W1 ⊢
              obtain ⟨tail, htail⟩ :=
                takeThrough_prefix_decomp y (walkEntries none loads)
              rw [htail, takeThrough_append_of_mem hu'W1] at hu
              exact mem_takeThrough_sub hu
      obtain ⟨hacc, t, hts2, hle⟩ :=
        foldl_matchStep_progress pending1 W1 base1 u c1 huW1 hc1
          c2 hc2db1.1 (by rw [hc1c2])
      have : ("sent" : String) = "accepted" := hc2db1.2.2.symm.trans hacc
      exact absurd this (by decide)

/-- A contact row used to exercise the checker idempotence theorem. -/
def contactC6 : Contact :=
  { id := 1, campaign_id := 0, profile_url := "u/", status := "sent" }

/-- C6: both status-checker strategies are idempotent against re-invocation:
with no intervening remote state change (the same connected-profile snapshot
for the direct strategy, the same page loads for the smart strategy), a
second run reports `newly_accepted = 0`.  The direct strategy needs no
side condition; the smart strategy needs the database invariants that
primary keys and profile addresses are unique and that no stored acceptance
timestamp lies at or after the current clock. -/
theorem claim_C6_checker_idempotent
    (connectedUrls : List String) (db1 : List Contact) (clock1 : Nat)
    (ids : List Nat) (db : List Contact) (clock : Nat) (cid : Nat)
    (loads : List (List String))
    (hids : (db.map (fun c => c.id)).Nodup)
    (hurls : (db.map (fun c => c.profile_url)).Nodup)
    (hts : ∀ c ∈ db, ∀ t, c.connection_accepted_at = some t → t < clock) :
    (check_specific_contacts connectedUrls
        (check_specific_contacts connectedUrls db1 clock1 ids).2.1
        (check_specific_contacts connectedUrls db1 clock1 ids).2.2
        ids).1.newly_accepted = 0 ∧
    (smart_connection_checker (smart_connection_checker db clock cid loads).db
        (smart_connection_checker db clock cid loads).clock
        cid loads).stats.newly_accepted = 0 := by
  constructor
  · show (checkSpecificGo connectedUrls ids {}
        (check_specific_contacts connectedUrls db1 clock1 ids).2.1
        (check_specific_contacts connectedUrls db1 clock1 ids).2.2).1.newly_accepted = 0
    exact checkSpecificGo_no_new ids {}
      (check_specific_contacts connectedUrls db1 clock1 ids).2.1
      (check_specific_contacts connectedUrls db1 clock1 ids).2.2
      (fun i hi => checkSpecificGo_establishes ids {} db1 clock1 i hi)
  · exact smart_second_run_zero db clock cid loads hids hurls hts

/-- Witness: checker idempotence instantiated on a one-row database whose
contact is pending and appears in the snapshots. -/
theorem claim_C6_witness :
    (check_specific_contacts ["u/"]
        (check_specific_contacts ["u/"] [contactC6] 0 [1]).2.1
        (check_specific_contacts ["u/"] [contactC6] 0 [1]).2.2
        [1]).1.newly_accepted = 0 ∧
    (smart_connection_checker
        (smart_connection_checker [contactC6] 5 0 [["u"]]).db
        (smart_connection_checker [contactC6] 5 0 [["u"]]).clock
        0 [["u"]]).stats.newly_accepted = 0 :=
  claim_C6_checker_idempotent ["u/"] [contactC6] 0 [1] [contactC6] 5 0 [["u"]]
    (by decide) (by decide)
    (by
      intro c hc t ht
      rw [List.mem_singleton] at hc
      subst hc
      exact Option.noConfusion ht)

end LinkedinNetworking
